import Mathlib

/-!
# CloudRift stack service: request framing, parsing and routing

A shallow embedding of `src/stack/stack_server.c` and `src/stack/db_client.c`.

Conventions of the embedding:

* A C string is the list of its characters before the terminating NUL
  (`List Char`); a `char *` pointing into a string is the suffix that starts
  at the pointee, so `p + k` is `p.drop k` and `q - p` is the difference of
  the lengths.
* A buffer filled by `read` is the list of the bytes received; the C string
  held by the buffer is `cstr` of it (the bytes before the first NUL).
* `size_t` is a `Nat` reduced modulo `2 ^ 64` where the source subtracts;
  `long` and `int` are `Int` wrapped to 64 and 32 bits.
* The SQL engine behind libpq is a table of `(id, value)` rows with a serial
  counter; each statement of the source is one function on it.
-/

namespace StackServer

/-! ## libc -/

/-- Bytes of a buffer up to (not including) its first NUL: the C string it holds. -/
def cstr : List Char → List Char
  | [] => []
  | c :: t => if c = '\x00' then [] else c :: cstr t

/-- C `isspace` in the C locale: space, `\t`, `\n`, `\v`, `\f`, `\r`. -/
def isspace (c : Char) : Bool :=
  c.toNat = 32 || (9 ≤ c.toNat && c.toNat ≤ 13)

/-- C `isdigit`: `'0'` to `'9'`. -/
def isdigit (c : Char) : Bool :=
  48 ≤ c.toNat && c.toNat ≤ 57

/-- C `strchr(s, c)` for a character `c` other than NUL: the suffix of `s`
starting at the first `c`, if any. -/
def strchr : List Char → Char → Option (List Char)
  | [], _ => none
  | x :: t, c => if x = c then some (x :: t) else strchr t c

/-- C `strstr(hay, needle)`: the suffix of `hay` starting at the first
occurrence of `needle`, if any. -/
def strstr : List Char → List Char → Option (List Char)
  | [], needle => if needle = [] then some [] else none
  | x :: t, needle =>
    if needle.isPrefixOf (x :: t) then some (x :: t) else strstr t needle

/-- Two's-complement wrap of an integer to `w` bits (signed). -/
def wrapSigned (w : Nat) (x : Int) : Int :=
  (x + 2 ^ (w - 1)) % 2 ^ w - 2 ^ (w - 1)

/-- The loop `while (*p && isspace(*p)) p++`. -/
def skipSpace : List Char → List Char
  | [] => []
  | c :: t => if isspace c then skipSpace t else c :: t

/-! ## `parse_request_line` -/

/-- Source: `parse_request_line(req, method, msz, path, psz)`; `none` is the
return value 0, `some (method, path)` the return value 1 with the two output
buffers. -/
def parse_request_line (req : List Char) (msz psz : Nat) :
    Option (List Char × List Char) :=
  match strchr req ' ' with
  | none => none
  | some sp1 =>
    match strchr (sp1.drop 1) ' ' with
    | none => none
    | some sp2 =>
      let ml := req.length - sp1.length
      let pl := (sp1.drop 1).length - sp2.length
      if ml = 0 ∨ ml ≥ msz then none
      else if pl = 0 ∨ pl ≥ psz then none
      else some (req.take ml, (sp1.drop 1).take pl)

/-! ## `header_content_length` -/

/-- The C expression `p[i]` on a string: the character at offset `i`, the
terminating NUL at the end. -/
def charAt (p : List Char) (i : Nat) : Char := p.getD i '\x00'

/-- Decimal magnitude read by `strtol`: the leading digit run, exactly. -/
def strtolDigits : List Char → Nat → Nat
  | [], acc => acc
  | c :: t, acc =>
    if isdigit c then strtolDigits t (acc * 10 + (c.toNat - 48)) else acc

/-- C `atoi` as in glibc, `(int) strtol(s, NULL, 10)`: leading white space,
an optional sign, the digit run, saturated to the range of `long` and then
converted to `int`. -/
def atoi (s : List Char) : Int :=
  let s1 := skipSpace s
  let neg := charAt s1 0 = '-'
  let s2 := if charAt s1 0 = '-' ∨ charAt s1 0 = '+' then s1.drop 1 else s1
  let m : Int := (strtolDigits s2 0 : Nat)
  let l : Int := if neg then max (-m) (-(2 ^ 63)) else min m (2 ^ 63 - 1)
  wrapSigned 32 l

/-- The fifteen-character test at the head of the loop of
`header_content_length`: `Content-Length:` in either case of each letter. -/
def matchesContentLength (p : List Char) : Bool :=
  (charAt p 0 = 'C' || charAt p 0 = 'c') &&
  (charAt p 1 = 'o' || charAt p 1 = 'O') &&
  (charAt p 2 = 'n' || charAt p 2 = 'N') &&
  (charAt p 3 = 't' || charAt p 3 = 'T') &&
  (charAt p 4 = 'e' || charAt p 4 = 'E') &&
  (charAt p 5 = 'n' || charAt p 5 = 'N') &&
  (charAt p 6 = 't' || charAt p 6 = 'T') &&
  charAt p 7 = '-' &&
  (charAt p 8 = 'L' || charAt p 8 = 'l') &&
  (charAt p 9 = 'e' || charAt p 9 = 'E') &&
  (charAt p 10 = 'n' || charAt p 10 = 'N') &&
  (charAt p 11 = 'g' || charAt p 11 = 'G') &&
  (charAt p 12 = 't' || charAt p 12 = 'T') &&
  (charAt p 13 = 'h' || charAt p 13 = 'H') &&
  charAt p 14 = ':'

/-- The `while (*p)` loop of `header_content_length`; each iteration moves
`p` past a CRLF, so `fuel` above the length of `p` is never exhausted. -/
def header_content_length_loop : Nat → List Char → Int
  | 0, _ => 0
  | fuel + 1, p =>
    if p = [] then 0
    else if matchesContentLength p then atoi (skipSpace (p.drop 15))
    else
      match strstr p ['\r', '\n'] with
      | none => 0
      | some nl => header_content_length_loop fuel (nl.drop 2)

/-- Source: `header_content_length(headers)`. -/
def header_content_length (headers : List Char) : Int :=
  header_content_length_loop (headers.length + 1) headers

/-! ## `extract_json_int_value` -/

/-- The accumulation loop `v = v * 10 + (*p - '0')` on a `long`. -/
def digitsLoop : List Char → Int → Int
  | [], v => v
  | c :: t, v =>
    if isdigit c then digitsLoop t (wrapSigned 64 (v * 10 + ((c.toNat : Int) - 48)))
    else v

/-- Source: `extract_json_int_value(json, key, out)`; `none` is the return
value 0, `some v` the return value 1 with `*out = v`. -/
def extract_json_int_value (json key : List Char) : Option Int :=
  let needle := (('"' :: key) ++ ['"']).take 63
  match strstr json needle with
  | none => none
  | some p0 =>
    let p1 := skipSpace (p0.drop needle.length)
    if charAt p1 0 ≠ ':' then none
    else
      let p2 := skipSpace (p1.drop 1)
      let sign : Int := if charAt p2 0 = '-' then -1 else 1
      let p3 := if charAt p2 0 = '-' then p2.drop 1 else p2
      if ¬ isdigit (charAt p3 0) then none
      else some (wrapSigned 32 (wrapSigned 64 (digitsLoop p3 0 * sign)))

/-! ## `read_full_http_request` -/

/-- The constant `BUFFER_SIZE`. -/
def BUFFER_SIZE : Nat := 65536

/-- The header terminator, CR LF CR LF. -/
def CRLFCRLF : List Char := ['\r', '\n', '\r', '\n']

/-- The value `return (total > 0)` at the end of `read_full_http_request`. -/
def readResult (buf : List Char) : Option (List Char) :=
  if buf.length > 0 then some buf else none

/-- The loop of `read_full_http_request`. The first argument is the results
of the successive `read` calls on the socket: the bytes each call delivers,
the empty list (or the end of the list) for a return value `<= 0`. `buf` is
the content of `out_buf[0 .. total)`. -/
def read_loop (out_sz : Nat) : List (List Char) → List Char → Option (List Char)
  | [], buf => readResult buf
  | chunk :: rest, buf =>
    if ¬ (buf.length < (out_sz + 2 ^ 64 - 1) % 2 ^ 64) then readResult buf
    else if chunk = [] then readResult buf
    else
      let buf1 := buf ++ chunk
      let s := cstr buf1
      match strstr s CRLFCRLF with
      | none => read_loop out_sz rest buf1
      | some hdr_end =>
        let header_len := (s.length - hdr_end.length) + 4
        let cl := header_content_length s
        let need := header_len + (if cl > 0 then cl.toNat else 0)
        if buf1.length ≥ need then some buf1 else read_loop out_sz rest buf1

/-- Source: `read_full_http_request(sock, out_buf, out_sz)`; `none` is the
return value 0, `some buf` the return value 1 with the bytes received. -/
def read_full_http_request (reads : List (List Char)) (out_sz : Nat) :
    Option (List Char) :=
  read_loop out_sz reads []

/-! ## `printf` conversions -/

/-- The decimal digit character of `d < 10`. -/
def digitChar (d : Nat) : Char :=
  match d with
  | 0 => '0' | 1 => '1' | 2 => '2' | 3 => '3' | 4 => '4'
  | 5 => '5' | 6 => '6' | 7 => '7' | 8 => '8' | _ => '9'

/-- Decimal digits of `n`, most significant first, in front of `acc`. -/
def natToDecAux : Nat → Nat → List Char → List Char
  | 0, _, acc => acc
  | fuel + 1, n, acc =>
    if n / 10 = 0 then digitChar (n % 10) :: acc
    else natToDecAux fuel (n / 10) (digitChar (n % 10) :: acc)

/-- The conversion `%zu`: the decimal text of a natural number. -/
def natToDec (n : Nat) : List Char := natToDecAux (n + 1) n []

/-- The conversion `%d`: the decimal text of an integer. -/
def intToDec (v : Int) : List Char :=
  if v < 0 then '-' :: natToDec v.natAbs else natToDec v.natAbs

/-! ## `send_response` -/

/-- The `status_text` selection at the top of `send_response`. -/
def status_text (status : Nat) : List Char :=
  if status = 200 then "200 OK".toList
  else if status = 400 then "400 Bad Request".toList
  else if status = 404 then "404 Not Found".toList
  else "500 Internal Server Error".toList

/-- The text the format string of `send_response` produces, before any
truncation to the size of `resp`. -/
def response_text (status : Nat) (body : List Char) : List Char :=
  "HTTP/1.1 ".toList ++ status_text status ++ "\r\n".toList ++
  "Content-Type: application/json\r\n".toList ++
  "Access-Control-Allow-Origin: *\r\n".toList ++
  "Access-Control-Allow-Methods: GET, POST, OPTIONS\r\n".toList ++
  "Access-Control-Allow-Headers: Content-Type\r\n".toList ++
  "Connection: close\r\n".toList ++
  "Content-Length: ".toList ++ natToDec body.length ++ "\r\n".toList ++
  "\r\n".toList ++
  body

/-- What `write(sock, resp, len)` is asked to send: either the whole
formatted text, or, when `snprintf` reports a length that `resp` cannot
hold, the truncated content of `resp` followed by `beyond` bytes that lie
outside of the array. -/
inductive Wire where
  | sent (bytes : List Char)
  | overread (inside : List Char) (beyond : Nat)
  deriving DecidableEq, Repr

/-- Source: `send_response(sock, status, body)`. `snprintf` returns the
length of the untruncated text, which is positive, and stores at most
`BUFFER_SIZE - 1` characters and a NUL. -/
def send_response (status : Nat) (body : List Char) : Wire :=
  let text := response_text status body
  let len := text.length
  if len < BUFFER_SIZE then Wire.sent text
  else Wire.overread (text.take (BUFFER_SIZE - 1) ++ ['\x00']) (len - BUFFER_SIZE)

/-! ## The storage collaborator

`db_client.c` and the libpq calls of `handle_client`. The engine is a table
`stack (id SERIAL PRIMARY KEY, value INT NOT NULL)`; the flags say which of
the calls of one request fail. -/

/-- A row of the table `stack`. -/
structure Row where
  id : Nat
  value : Int
  deriving DecidableEq, Repr

/-- The storage engine as the handler sees it. -/
structure Storage where
  /-- The four variables `DB_HOST`, `DB_NAME`, `DB_USER`, `DB_PASSWORD` are set. -/
  envSet : Bool
  /-- Whether `PQconnectdb` reaches `CONNECTION_OK`. -/
  serverUp : Bool
  /-- The `CREATE TABLE IF NOT EXISTS` statement fails. -/
  createFails : Bool
  /-- The `INSERT` statement fails. -/
  insertFails : Bool
  /-- The `DELETE ... RETURNING` statement fails. -/
  deleteFails : Bool
  /-- The `SELECT` statement fails. -/
  selectFails : Bool
  /-- The table `stack` exists. -/
  tableExists : Bool
  /-- The rows of the table, in no particular order. -/
  rows : List Row
  /-- Next value of the sequence behind the `SERIAL` column. -/
  nextId : Nat
  deriving DecidableEq, Repr

/-- Source: `get_db_connection()`: `NULL` (false) when a variable is missing
or the connection status is not `CONNECTION_OK`. -/
def get_db_connection (st : Storage) : Bool :=
  if ¬ st.envSet then false
  else if ¬ st.serverUp then false
  else true

/-- Statement `CREATE TABLE IF NOT EXISTS stack (id SERIAL PRIMARY KEY, value INT NOT NULL);`
A new table is empty and its sequence starts at 1. -/
def exec_create (st : Storage) : Storage :=
  if st.createFails then st
  else if st.tableExists then st
  else { st with tableExists := true, rows := [], nextId := 1 }

/-- Magnitude of a digit string, `none` when a character is not a digit. -/
def int4Digits : List Char → Nat → Option Nat
  | [], acc => some acc
  | c :: t, acc => if isdigit c then int4Digits t (acc * 10 + (c.toNat - 48)) else none

/-- Input conversion of the engine for the type `INT`: an optional sign, one
or more digits, and a value in the 32-bit signed range. -/
def int4in (s : List Char) : Option Int :=
  let neg := charAt s 0 = '-'
  let d := if charAt s 0 = '-' ∨ charAt s 0 = '+' then s.drop 1 else s
  if d = [] then none
  else
    match int4Digits d 0 with
    | none => none
    | some m =>
      let v : Int := if neg then -(m : Int) else (m : Int)
      if -(2 ^ 31) ≤ v ∧ v < 2 ^ 31 then some v else none

/-- Statement `INSERT INTO stack (value) VALUES ($1)` with the text parameter `param`;
the Boolean is `PQresultStatus(res) == PGRES_COMMAND_OK`. -/
def exec_insert (st : Storage) (param : List Char) : Bool × Storage :=
  if st.insertFails ∨ ¬ st.tableExists then (false, st)
  else
    match int4in param with
    | none => (false, st)
    | some v => (true, { st with rows := st.rows ++ [⟨st.nextId, v⟩], nextId := st.nextId + 1 })

/-- Insertion of a row into a list ordered by `id` descending. -/
def insertDesc (r : Row) : List Row → List Row
  | [] => [r]
  | x :: t => if x.id ≤ r.id then r :: x :: t else x :: insertDesc r t

/-- The clause `ORDER BY id DESC`, as an insertion sort. -/
def orderByIdDesc : List Row → List Row
  | [] => []
  | r :: t => insertDesc r (orderByIdDesc t)

/-- Statement `DELETE FROM stack WHERE id = (SELECT id FROM stack ORDER BY id DESC LIMIT 1)
RETURNING value`: `none` when the status is not `PGRES_TUPLES_OK`, otherwise
the text values of the returned tuples. -/
def exec_delete_top (st : Storage) : Option (List (List Char)) × Storage :=
  if st.deleteFails ∨ ¬ st.tableExists then (none, st)
  else
    match orderByIdDesc st.rows with
    | [] => (some [], st)
    | top :: _ =>
      (some (((st.rows.filter (fun r => r.id = top.id)).map (fun r => intToDec r.value))),
        { st with rows := st.rows.filter (fun r => ¬ r.id = top.id) })

/-- Statement `SELECT value FROM stack ORDER BY id DESC`: `none` when the status is not
`PGRES_TUPLES_OK`, otherwise the text values of the tuples in order. -/
def exec_select (st : Storage) : Option (List (List Char)) :=
  if st.selectFails ∨ ¬ st.tableExists then none
  else some ((orderByIdDesc st.rows).map (fun r => intToDec r.value))

/-! ## `handle_client` -/

/-- A call the handler makes on the storage collaborator. -/
inductive StorageOp where
  | connect
  | createTable
  | insert (param : List Char)
  | deleteTop
  | selectAll
  | finish
  deriving DecidableEq, Repr

/-- What one run of `handle_client` does: the arguments of its
`send_response` call (if it makes one), the storage afterwards and the
storage calls it made, in order. -/
structure Outcome where
  response : Option (Nat × List Char)
  storage : Storage
  ops : List StorageOp
  deriving DecidableEq, Repr

/-- The row loop of the `GET /stack` branch: `vals` are the values of the
rows `i, i+1, ..`, `used` the number of characters already in `out`. The
result is the text the loop appends. -/
def stackRowsLoop : List (List Char) → Nat → List Char
  | [], _ => []
  | v :: rest, used =>
    if used + v.length + 4 ≥ BUFFER_SIZE then []
    else
      let piece := v ++ (if rest ≠ [] then [','] else [])
      piece ++ stackRowsLoop rest (used + piece.length)

/-- The buffer `out` of the `GET /stack` branch. -/
def stackJson (vals : List (List Char)) : List Char :=
  '[' :: (stackRowsLoop vals 1 ++ [']'])

/-- Source: `handle_client(client_sock)`, with the results of the `read`
calls on the socket and the storage as inputs. -/
def handle_client (reads : List (List Char)) (st : Storage) : Outcome :=
  match read_full_http_request reads BUFFER_SIZE with
  | none => ⟨none, st, []⟩
  | some buf =>
    let req := cstr buf
    match parse_request_line req 16 256 with
    | none => ⟨some (400, "\x7b\"error\":\"Bad Request\"\x7d".toList), st, []⟩
    | some (method, path) =>
      if method = "OPTIONS".toList then
        ⟨some (200, "\x7b\"status\":\"ok\"\x7d".toList), st, []⟩
      else
        let body := match strstr req CRLFCRLF with
          | some hdr_end => hdr_end.drop 4
          | none => []
        if method = "GET".toList ∧ path = "/health".toList then
          ⟨some (200, "\x7b\"status\":\"ok\"\x7d".toList), st, []⟩
        else if ¬ get_db_connection st then
          ⟨some (500, "\x7b\"error\":\"DB connection failed\"\x7d".toList), st,
            [StorageOp.connect]⟩
        else
          let st1 := exec_create st
          if method = "POST".toList ∧ path = "/push".toList then
            match extract_json_int_value body "value".toList with
            | none =>
              ⟨some (400,
                  "\x7b\"error\":\"Invalid JSON: expected \x7b\\\"value\\\": <int>\x7d\"\x7d".toList),
                st1, [StorageOp.connect, StorageOp.createTable, StorageOp.finish]⟩
            | some val =>
              let val_str := (intToDec val).take 31
              let res := exec_insert st1 val_str
              if ¬ res.1 then
                ⟨some (500, "\x7b\"error\":\"DB insert failed\"\x7d".toList), res.2,
                  [StorageOp.connect, StorageOp.createTable, StorageOp.insert val_str,
                    StorageOp.finish]⟩
              else
                ⟨some (200, "\x7b\"status\":\"pushed\"\x7d".toList), res.2,
                  [StorageOp.connect, StorageOp.createTable, StorageOp.insert val_str,
                    StorageOp.finish]⟩
          else if method = "POST".toList ∧ path = "/pop".toList then
            let res := exec_delete_top st1
            match res.1 with
            | some (v :: _) =>
              ⟨some (200,
                  ("\x7b\"status\":\"popped\",\"value\":".toList ++ v ++ "\x7d".toList).take 127),
                res.2, [StorageOp.connect, StorageOp.createTable, StorageOp.deleteTop,
                  StorageOp.finish]⟩
            | _ =>
              ⟨some (200, "\x7b\"status\":\"stack empty\"\x7d".toList), res.2,
                [StorageOp.connect, StorageOp.createTable, StorageOp.deleteTop,
                  StorageOp.finish]⟩
          else if method = "GET".toList ∧ path = "/stack".toList then
            match exec_select st1 with
            | none =>
              ⟨some (500, "\x7b\"error\":\"DB select failed\"\x7d".toList), st1,
                [StorageOp.connect, StorageOp.createTable, StorageOp.selectAll,
                  StorageOp.finish]⟩
            | some vals =>
              ⟨some (200, stackJson vals), st1,
                [StorageOp.connect, StorageOp.createTable, StorageOp.selectAll,
                  StorageOp.finish]⟩
          else
            ⟨some (404, "\x7b\"error\":\"Route Not Found\"\x7d".toList), st1,
              [StorageOp.connect, StorageOp.createTable, StorageOp.finish]⟩

/-- The accept loop of `main`: the connections are handled one after the
other on the same storage; the result lists the response of each. -/
def serve : List (List (List Char)) → Storage → List (Option (Nat × List Char)) × Storage
  | [], st => ([], st)
  | conn :: rest, st =>
    let o := handle_client conn st
    let r := serve rest o.storage
    (o.response :: r.1, r.2)

/-! ## Words of the specification -/

/-- The text before the first space of `s` (all of `s` when it has none). -/
def textBeforeFirstSpace (s : List Char) : List Char :=
  s.takeWhile (fun c => c ≠ ' ')

/-- The text after the first space of `s` (empty when it has none). -/
def textAfterFirstSpace (s : List Char) : List Char :=
  (s.dropWhile (fun c => c ≠ ' ')).drop 1

/-- The text between the first and the second space of `s`. -/
def textBetweenSpaces (s : List Char) : List Char :=
  textBeforeFirstSpace (textAfterFirstSpace s)

/-- The conditions under which the request line is refused, for the
capacities `msz` and `psz`. -/
def lineRefused (req : List Char) (msz psz : Nat) : Prop :=
  ' ' ∉ req ∨ ' ' ∉ textAfterFirstSpace req ∨
  textBeforeFirstSpace req = [] ∨ msz ≤ (textBeforeFirstSpace req).length ∨
  textBetweenSpaces req = [] ∨ psz ≤ (textBetweenSpaces req).length

instance (req : List Char) (msz psz : Nat) : Decidable (lineRefused req msz psz) := by
  unfold lineRefused; infer_instance

/-- The quoted needle `extract_json_int_value` builds for `key` in its
64-byte array. -/
def needleOf (key : List Char) : List Char := (('"' :: key) ++ ['"']).take 63

/-- The needle for the key `value`: the five letters in double quotes. -/
def valueNeedle : List Char := "\"value\"".toList

/-- The occurrence of `needle` that follows `pre` is the first one: inside
`pre ++ needle` the needle occurs at the end only. -/
def FirstOccurrence (needle pre : List Char) : Prop :=
  ∀ a b : List Char, pre ++ needle = a ++ needle ++ b → b = []

/-- Value of a digit string read as a decimal number. -/
def decimalValue (digits : List Char) : Nat :=
  digits.foldl (fun a c => a * 10 + (c.toNat - 48)) 0

/-- Value of a digit string with an optional minus sign in front. -/
def signedValue (neg : Bool) (digits : List Char) : Int :=
  if neg then -(decimalValue digits : Int) else (decimalValue digits : Int)

/-- The text of an optional minus sign. -/
def signText (neg : Bool) : List Char := if neg then ['-'] else []

/-- The first non-whitespace character of `post` is not a colon. -/
def colonMissing (post : List Char) : Prop :=
  (post.dropWhile isspace).head? ≠ some ':'

/-- After the first non-whitespace character of `post`, optional whitespace
and an optional minus sign, the next character is not a decimal digit. -/
def digitMissing (post : List Char) : Prop :=
  let afterColon := ((post.dropWhile isspace).drop 1).dropWhile isspace
  let afterSign := if afterColon.head? = some '-' then afterColon.drop 1 else afterColon
  ¬ ∃ c, afterSign.head? = some c ∧ isdigit c = true

/-- The part of `extract_json_int_value` that runs once the needle is found,
on the text that follows the needle. -/
def valueAfterKey (post : List Char) : Option Int :=
  let p1 := skipSpace post
  if charAt p1 0 ≠ ':' then none
  else
    let p2 := skipSpace (p1.drop 1)
    let sign : Int := if charAt p2 0 = '-' then -1 else 1
    let p3 := if charAt p2 0 = '-' then p2.drop 1 else p2
    if ¬ isdigit (charAt p3 0) then none
    else some (wrapSigned 32 (wrapSigned 64 (digitsLoop p3 0 * sign)))

/-- The body of a request: the text after the first header terminator,
empty when there is none. -/
def requestBody (req : List Char) : List Char :=
  match strstr req CRLFCRLF with
  | some hdr_end => hdr_end.drop 4
  | none => []

/-- A storage that accepts connections and on which no statement fails. -/
def Storage.working (st : Storage) : Prop :=
  st.envSet = true ∧ st.serverUp = true ∧ st.createFails = false ∧
  st.insertFails = false ∧ st.deleteFails = false ∧ st.selectFails = false

/-- A request line with a path of 256 bytes: a slash and 255 letters. -/
def longPath : List Char := '/' :: List.replicate 255 'a'

instance (st : Storage) : Decidable st.working := by
  unfold Storage.working; infer_instance

/-- A storage with an empty table on which every call succeeds. -/
def emptyStorage : Storage :=
  { envSet := true, serverUp := true, createFails := false, insertFails := false,
    deleteFails := false, selectFails := false, tableExists := true, rows := [], nextId := 1 }

/-- A storage whose connection parameters are missing. -/
def unreachableStorage : Storage := { emptyStorage with envSet := false }

/-- An integer in the range of a 32-bit signed `int`. -/
def fitsInt32 (v : Int) : Prop := -(2 ^ 31) ≤ v ∧ v < 2 ^ 31

instance (v : Int) : Decidable (fitsInt32 v) := by
  unfold fitsInt32; infer_instance

/-- The request body `{"value": v}`. -/
def pushBody (v : Int) : List Char :=
  "\x7b\"value\": ".toList ++ intToDec v ++ "\x7d".toList

/-- The response body `{"status":"popped","value":v}`. -/
def poppedBody (v : Int) : List Char :=
  "\x7b\"status\":\"popped\",\"value\":".toList ++ intToDec v ++ "\x7d".toList

/-- Texts separated by single commas, no comma at the end. -/
def commaJoin : List (List Char) → List Char
  | [] => []
  | [v] => v
  | v :: w :: rest => v ++ ',' :: commaJoin (w :: rest)

/-- The JSON array of the integers `vs`: an opening bracket, the decimal
values separated by commas, a closing bracket. -/
def jsonArray (vs : List Int) : List Char :=
  '[' :: (commaJoin (vs.map intToDec) ++ [']'])

/-- The connection delivers a request that is read, whose start line parses
to `method` and `path` and whose body is `body`. -/
def IsRequest (conn : List (List Char)) (method path body : List Char) : Prop :=
  ∃ buf, read_full_http_request conn BUFFER_SIZE = some buf ∧
    parse_request_line (cstr buf) 16 256 = some (method, path) ∧
    requestBody (cstr buf) = body

/-- The connection delivers `POST /push` with the body `{"value": v}`. -/
def IsPush (conn : List (List Char)) (v : Int) : Prop :=
  IsRequest conn "POST".toList "/push".toList (pushBody v)

/-- The connection delivers `POST /pop`. -/
def IsPop (conn : List (List Char)) : Prop :=
  ∃ body, IsRequest conn "POST".toList "/pop".toList body

/-- The connection delivers `GET /stack`. -/
def IsList (conn : List (List Char)) : Prop :=
  ∃ body, IsRequest conn "GET".toList "/stack".toList body

/-- The rows carry strictly increasing ids, all below the next value of the
sequence: the shape of a table filled by the `INSERT` statement alone. -/
def rowsInOrder (st : Storage) : Prop :=
  st.rows.Pairwise (fun a b => a.id < b.id) ∧ ∀ r ∈ st.rows, r.id < st.nextId

/-- The storage after a successful `INSERT` of the value `v`. -/
def pushRow (st : Storage) (v : Int) : Storage :=
  { st with rows := st.rows ++ [⟨st.nextId, v⟩], nextId := st.nextId + 1 }

/-- The storage works and its table, if it exists, holds the values `vs` in
the order of their insertion (the stack from bottom to top); a table that
does not exist yet counts as empty. -/
def StackIs (st : Storage) (vs : List Int) : Prop :=
  st.working ∧ (st.tableExists = true ∨ st.rows = []) ∧ rowsInOrder st ∧
    st.rows.map (fun r => r.value) = vs

/-- The storage calls of a request that runs one statement `op`. -/
def opsWith (op : StorageOp) : List StorageOp :=
  [StorageOp.connect, StorageOp.createTable, op, StorageOp.finish]

/-- A connection that delivers `POST /push` with the body `{"value": v}` in
one read. -/
def pushRequest (v : Int) : List (List Char) :=
  ["POST /push HTTP/1.1\r\n\r\n".toList ++ pushBody v]

/-- A connection that delivers `POST /pop` in one read. -/
def popRequest : List (List Char) := ["POST /pop HTTP/1.1\r\n\r\n".toList]

/-- A connection that delivers `GET /stack` in one read. -/
def listRequest : List (List Char) := ["GET /stack HTTP/1.1\r\n\r\n".toList]

/-- The response to a successful push. -/
def pushedResponse : Option (Nat × List Char) :=
  some (200, "\x7b\"status\":\"pushed\"\x7d".toList)

/-- The reason phrase that goes with a status code: `200 OK`,
`400 Bad Request`, `404 Not Found`, and `500 Internal Server Error` for
every other code. -/
def reasonPhrase (status : Nat) : List Char :=
  match status with
  | 200 => "200 OK".toList
  | 400 => "400 Bad Request".toList
  | 404 => "404 Not Found".toList
  | _ => "500 Internal Server Error".toList

/-- The fixed header lines of every response: content type, the three CORS
headers and `Connection: close`. -/
def fixedHeaders : List Char :=
  "Content-Type: application/json\r\n".toList ++
  "Access-Control-Allow-Origin: *\r\n".toList ++
  "Access-Control-Allow-Methods: GET, POST, OPTIONS\r\n".toList ++
  "Access-Control-Allow-Headers: Content-Type\r\n".toList ++
  "Connection: close\r\n".toList

/-- A body of 65536 letters, as long as the whole response buffer. -/
def longBody : List Char := List.replicate 65536 'a'

/-- Texts written as a JSON array: an opening bracket, the texts separated
by single commas, a closing bracket. -/
def bracketed (vals : List (List Char)) : List Char :=
  '[' :: (commaJoin vals ++ [']'])

/-- The rows with the ids `1 .. n`, each holding the value 1. -/
def onesRows (n : Nat) : List Row :=
  (List.range n).map (fun i => ⟨i + 1, 1⟩)

/-- A working storage whose table holds `n` rows with the value 1. -/
def onesStorage (n : Nat) : Storage :=
  { emptyStorage with rows := onesRows n, nextId := n + 1 }

/-- The test `hdr_end && total >= need` in the loop of
`read_full_http_request`, on the bytes received so far. -/
def completeCheck (buf1 : List Char) : Bool :=
  match strstr (cstr buf1) CRLFCRLF with
  | none => false
  | some hdr_end =>
    decide (buf1.length ≥ ((cstr buf1).length - hdr_end.length) + 4
      + (if header_content_length (cstr buf1) > 0
          then (header_content_length (cstr buf1)).toNat else 0))

/-- The request in the buffer is complete: the text held by the buffer (its
bytes up to the first NUL) contains the header terminator, and the number of
bytes received is at least the length of the headers through the first
terminator plus the declared content length, a negative one counting as 0. -/
def RequestComplete (buf : List Char) : Prop :=
  ∃ head tail, cstr buf = head ++ CRLFCRLF ++ tail ∧ FirstOccurrence CRLFCRLF head ∧
    head.length + 4 + (header_content_length (cstr buf)).toNat ≤ buf.length

/-- The value of `out_sz - 1` in the arithmetic of `size_t`. -/
def roomOf (out_sz : Nat) : Nat := (out_sz + 2 ^ 64 - 1) % 2 ^ 64

/-- The successive values of `total` in the loop of
`read_full_http_request`, one for each read that delivers bytes: the read
writes the bytes below that index and the statement `out_buf[total] = 0`
writes the NUL at that index. -/
def read_totals (out_sz : Nat) : List (List Char) → List Char → List Nat
  | [], _ => []
  | chunk :: rest, buf =>
    if ¬ (buf.length < (out_sz + 2 ^ 64 - 1) % 2 ^ 64) then []
    else if chunk = [] then []
    else
      (buf ++ chunk).length ::
        (if completeCheck (buf ++ chunk) then [] else read_totals out_sz rest (buf ++ chunk))

/-- Each read that the loop of `read_full_http_request` makes returns no
more bytes than the `out_sz - 1 - total` it asked for. -/
def readsFit (out_sz : Nat) : List (List Char) → List Char → Prop
  | [], _ => True
  | chunk :: rest, buf =>
    buf.length < (out_sz + 2 ^ 64 - 1) % 2 ^ 64 →
      chunk.length ≤ (out_sz + 2 ^ 64 - 1) % 2 ^ 64 - buf.length ∧
        (chunk ≠ [] → completeCheck (buf ++ chunk) = false → readsFit out_sz rest (buf ++ chunk))

/-- A storage that works and holds the single value 5. -/
def oneRowStorage : Storage :=
  { emptyStorage with rows := [⟨1, 5⟩], nextId := 2 }

/-- The three bodies of the responses to a storage failure. -/
def storageErrorBodies : List (List Char) :=
  ["\x7b\"error\":\"DB connection failed\"\x7d".toList,
    "\x7b\"error\":\"DB insert failed\"\x7d".toList,
    "\x7b\"error\":\"DB select failed\"\x7d".toList]

/-- The first line of a request: the text before the first CR LF pair, all
of the text when there is none. -/
def firstLine (req : List Char) : List Char :=
  match strstr req ['\r', '\n'] with
  | some rest => req.take (req.length - rest.length)
  | none => req

/-- The text `pre` ends where a line starts: it is empty or ends in CR LF. -/
def startsLine (pre : List Char) : Prop :=
  pre = [] ∨ ∃ q, pre = q ++ ['\r', '\n']

/-- The text `v` does not start, after white space and an optional sign,
with a decimal digit. -/
def valueNotNumeric (v : List Char) : Prop :=
  let t := v.dropWhile isspace
  let u := if t.head? = some '-' ∨ t.head? = some '+' then t.drop 1 else t
  ¬ ∃ c, u.head? = some c ∧ isdigit c = true

/-- The condition `valueNotNumeric` as a computation. -/
def valueNotNumericB (v : List Char) : Bool :=
  let t := v.dropWhile isspace
  let u := if t.head? = some '-' ∨ t.head? = some '+' then t.drop 1 else t
  match u.head? with
  | some c => !isdigit c
  | none => true

/-! ## Lemmas on `strchr` and `parse_request_line` -/

theorem strchr_eq (s : List Char) (c : Char) :
    strchr s c = if c ∈ s then some (s.dropWhile (fun x => x ≠ c)) else none := by
  induction s with
  | nil => simp [strchr]
  | cons x t ih =>
    by_cases h : x = c
    · subst h; simp [strchr, List.dropWhile]
    · have h2 : ¬ c = x := fun e => h e.symm
      simp [strchr, List.dropWhile, h, h2, ih]

theorem length_sub_dropWhile (s : List Char) (p : Char → Bool) :
    s.length - (s.dropWhile p).length = (s.takeWhile p).length := by
  have h := List.takeWhile_append_dropWhile p s
  have h2 := congrArg List.length h
  rw [List.length_append] at h2
  omega

theorem take_length_takeWhile (s : List Char) (p : Char → Bool) :
    s.take (s.takeWhile p).length = s.takeWhile p := by
  have h := List.takeWhile_append_dropWhile p s
  have e : s.take (s.takeWhile p).length
      = (s.takeWhile p ++ s.dropWhile p).take (s.takeWhile p).length := by rw [h]
  rw [e, List.take_left]

theorem parse_request_line_eq (req : List Char) (msz psz : Nat) :
    parse_request_line req msz psz =
      if lineRefused req msz psz then none
      else some (textBeforeFirstSpace req, textBetweenSpaces req) := by
  unfold parse_request_line lineRefused
  rw [strchr_eq]
  by_cases h1 : ' ' ∈ req
  · simp only [h1, if_true]
    have e1 : (req.dropWhile (fun x => decide (x ≠ ' '))).drop 1 = textAfterFirstSpace req := rfl
    rw [e1, strchr_eq]
    by_cases h2 : ' ' ∈ textAfterFirstSpace req
    · simp only [h2, if_true]
      have l1 : req.length - (req.dropWhile (fun x => decide (x ≠ ' '))).length
          = (textBeforeFirstSpace req).length := length_sub_dropWhile _ _
      have l2 : (textAfterFirstSpace req).length
          - ((textAfterFirstSpace req).dropWhile (fun x => decide (x ≠ ' '))).length
          = (textBetweenSpaces req).length := length_sub_dropWhile _ _
      have t1 : req.take (textBeforeFirstSpace req).length = textBeforeFirstSpace req :=
        take_length_takeWhile _ _
      have t2 : (textAfterFirstSpace req).take (textBetweenSpaces req).length
          = textBetweenSpaces req := take_length_takeWhile _ _
      simp only [l1, l2, t1, t2, List.length_eq_zero, ge_iff_le, not_true_eq_false, false_or]
      by_cases a : textBeforeFirstSpace req = [] ∨ msz ≤ (textBeforeFirstSpace req).length
      · rcases a with a | a <;> simp [a]
      · have a1 : ¬ textBeforeFirstSpace req = [] := fun e => a (Or.inl e)
        have a2 : ¬ msz ≤ (textBeforeFirstSpace req).length := fun e => a (Or.inr e)
        by_cases b : textBetweenSpaces req = [] ∨ psz ≤ (textBetweenSpaces req).length
        · rcases b with b | b <;> simp [a1, a2, b]
        · have b1 : ¬ textBetweenSpaces req = [] := fun e => b (Or.inl e)
          have b2 : ¬ psz ≤ (textBetweenSpaces req).length := fun e => b (Or.inr e)
          simp [a1, a2, b1, b2]
    · simp [h2]
  · simp [h1]

/-- C3: for the capacities 16 and 256, `parse_request_line` fails exactly
when the text has no space, or no second space after the first, or the text
before the first space is empty or at least 16 long, or the text between the
two spaces is empty or at least 256 long; in every other case it returns the
text before the first space as method and the text between the first and
the second space as path. -/
theorem parse_request_line_contract (req : List Char) :
    (parse_request_line req 16 256 = none ↔
      (' ' ∉ req ∨ ' ' ∉ textAfterFirstSpace req ∨
        textBeforeFirstSpace req = [] ∨ 16 ≤ (textBeforeFirstSpace req).length ∨
        textBetweenSpaces req = [] ∨ 256 ≤ (textBetweenSpaces req).length)) ∧
    parse_request_line req 16 256 =
      (if ' ' ∉ req ∨ ' ' ∉ textAfterFirstSpace req ∨
          textBeforeFirstSpace req = [] ∨ 16 ≤ (textBeforeFirstSpace req).length ∨
          textBetweenSpaces req = [] ∨ 256 ≤ (textBetweenSpaces req).length
        then none
        else some (textBeforeFirstSpace req, textBetweenSpaces req)) := by
  have h := parse_request_line_eq req 16 256
  unfold lineRefused at h
  refine ⟨?_, h⟩
  rw [h]
  split <;> simp_all

/-! ## Lemmas on `strstr` -/

theorem strstr_none_iff (hay needle : List Char) :
    strstr hay needle = none ↔ ¬ needle <:+: hay := by
  induction hay with
  | nil =>
    by_cases h : needle = []
    · simp [strstr, h]
    · simp [strstr, h]
  | cons x t ih =>
    unfold strstr
    by_cases h : needle.isPrefixOf (x :: t) = true
    · simp only [h, if_true]
      have hp : needle <+: x :: t := List.isPrefixOf_iff_prefix.mp h
      simp [hp.isInfix]
    · simp only [h]
      have hp : ¬ needle <+: x :: t := fun e => h (List.isPrefixOf_iff_prefix.mpr e)
      rw [if_neg (by simp), ih, List.infix_cons_iff]
      simp [hp]

theorem strstr_some (hay needle suf : List Char) (h : strstr hay needle = some suf) :
    ∃ pre post, hay = pre ++ needle ++ post ∧ suf = needle ++ post ∧
      FirstOccurrence needle pre := by
  induction hay with
  | nil =>
    by_cases hn : needle = []
    · subst hn
      simp [strstr] at h
      subst h
      refine ⟨[], [], by simp, by simp, ?_⟩
      intro a b e
      simp at e
      exact e.2
    · simp [strstr, hn] at h
  | cons x t ih =>
    unfold strstr at h
    by_cases hp : needle.isPrefixOf (x :: t) = true
    · simp only [hp, if_true, Option.some.injEq] at h
      obtain ⟨post, hpost⟩ := List.isPrefixOf_iff_prefix.mp hp
      refine ⟨[], post, by simp [hpost], by rw [← h, hpost], ?_⟩
      intro a b e
      have hl := congrArg List.length e
      simp at hl
      exact List.length_eq_zero.mp (by omega)
    · rw [if_neg hp] at h
      obtain ⟨pre, post, h1, h2, h3⟩ := ih h
      refine ⟨x :: pre, post, by simp [h1], h2, ?_⟩
      intro a b e
      cases a with
      | nil =>
        exfalso
        apply hp
        apply List.isPrefixOf_iff_prefix.mpr
        refine ⟨b ++ post, ?_⟩
        have : x :: t = (x :: pre ++ needle) ++ post := by simp [h1]
        rw [this, e]
        simp
      | cons y a2 =>
        simp at e
        exact h3 a2 b (by simpa using e.2)

theorem strstr_first (needle pre post : List Char) (h : FirstOccurrence needle pre) :
    strstr (pre ++ needle ++ post) needle = some (needle ++ post) := by
  induction pre with
  | nil =>
    cases hn : needle ++ post with
    | nil =>
      have h1 : needle = [] := (List.append_eq_nil.mp hn).1
      have h2 : post = [] := (List.append_eq_nil.mp hn).2
      simp [strstr, h1, h2]
    | cons x t =>
      have hp : needle.isPrefixOf (x :: t) = true := by
        rw [← hn]
        exact List.isPrefixOf_iff_prefix.mpr ⟨post, rfl⟩
      simp [strstr, hn, hp]
  | cons x t ih =>
    have hnot : ¬ needle.isPrefixOf (x :: (t ++ needle ++ post)) = true := by
      intro hp
      have hp1 : needle <+: (x :: t ++ needle) ++ post := by
        have := List.isPrefixOf_iff_prefix.mp hp
        simpa using this
      have hp2 : (x :: t ++ needle) <+: (x :: t ++ needle) ++ post := ⟨post, rfl⟩
      have hp3 : needle <+: x :: t ++ needle :=
        List.prefix_of_prefix_length_le hp1 hp2 (by simp; omega)
      obtain ⟨b, hb⟩ := hp3
      have hb2 := h [] b (by simpa using hb.symm)
      subst hb2
      have hl := congrArg List.length hb
      simp at hl
      omega
    have ht : FirstOccurrence needle t := by
      intro a b e
      exact h (x :: a) b (by simp [e])
    have e : x :: t ++ needle ++ post = x :: (t ++ needle ++ post) := by simp
    rw [e]
    unfold strstr
    rw [if_neg hnot]
    exact ih ht

theorem firstOccurrence_of_strstr (needle pre : List Char)
    (h : strstr (pre ++ needle) needle = some needle) : FirstOccurrence needle pre := by
  obtain ⟨pre2, post2, h1, h2, h3⟩ := strstr_some _ _ _ h
  have hp : post2 = [] := by
    have := congrArg List.length h2
    simp at this
    exact this
  subst hp
  simp at h1
  rw [h1]; exact h3

/-! ## Lemmas on `extract_json_int_value` -/

theorem extract_eq (json key : List Char) :
    extract_json_int_value json key =
      match strstr json (needleOf key) with
      | none => none
      | some p0 => valueAfterKey (p0.drop (needleOf key).length) := rfl

theorem extract_at_first (key pre post : List Char)
    (h : FirstOccurrence (needleOf key) pre) :
    extract_json_int_value (pre ++ needleOf key ++ post) key = valueAfterKey post := by
  rw [extract_eq, strstr_first _ _ _ h]
  simp

theorem needleOf_value : needleOf "value".toList = valueNeedle := by decide

theorem skipSpace_eq_dropWhile (s : List Char) : skipSpace s = s.dropWhile isspace := by
  induction s with
  | nil => rfl
  | cons c t ih =>
    by_cases h : isspace c = true
    · simp [skipSpace, List.dropWhile, h, ih]
    · simp [skipSpace, List.dropWhile, h]

theorem skipSpace_append (ws rest : List Char) (h : ∀ c ∈ ws, isspace c = true) :
    skipSpace (ws ++ rest) = skipSpace rest := by
  induction ws with
  | nil => rfl
  | cons c t ih =>
    have hc : isspace c = true := h c (List.mem_cons_self _ _)
    have ht : ∀ d ∈ t, isspace d = true := fun d hd => h d (List.mem_cons_of_mem _ hd)
    simp [skipSpace, hc, ih ht]

theorem skipSpace_cons_of_not (c : Char) (t : List Char) (h : isspace c = false) :
    skipSpace (c :: t) = c :: t := by
  simp [skipSpace, h]

theorem isdigit_bounds (c : Char) (h : isdigit c = true) : 48 ≤ c.toNat ∧ c.toNat ≤ 57 := by
  simpa [isdigit] using h

theorem isspace_of_isdigit (c : Char) (h : isdigit c = true) : isspace c = false := by
  have hb := isdigit_bounds c h
  simp [isspace]
  omega

theorem ne_minus_of_isdigit (c : Char) (h : isdigit c = true) : c ≠ '-' := by
  intro e
  subst e
  exact absurd h (by decide)

theorem digitsLoop_append (digits rest : List Char) (v : Int)
    (hdig : ∀ c ∈ digits, isdigit c = true)
    (hrest : ∀ c, rest.head? = some c → isdigit c = false) :
    digitsLoop (digits ++ rest) v = digitsLoop digits v := by
  induction digits generalizing v with
  | nil =>
    cases rest with
    | nil => rfl
    | cons c t =>
      have := hrest c rfl
      simp [digitsLoop, this]
  | cons d ds ih =>
    have hd : isdigit d = true := hdig d (List.mem_cons_self _ _)
    have hds : ∀ c ∈ ds, isdigit c = true := fun c hc => hdig c (List.mem_cons_of_mem _ hc)
    simp [digitsLoop, hd, ih _ hds]

theorem valueAfterKey_pattern (ws1 ws2 digits rest : List Char) (neg : Bool)
    (hws1 : ∀ c ∈ ws1, isspace c = true) (hws2 : ∀ c ∈ ws2, isspace c = true)
    (hne : digits ≠ []) (hdig : ∀ c ∈ digits, isdigit c = true)
    (hrest : ∀ c, rest.head? = some c → isdigit c = false) :
    valueAfterKey (ws1 ++ ':' :: (ws2 ++ signText neg ++ digits ++ rest)) =
      some (wrapSigned 32 (wrapSigned 64
        (digitsLoop digits 0 * (if neg = true then -1 else 1)))) := by
  obtain ⟨d, ds, rfl⟩ := List.exists_cons_of_ne_nil hne
  have hd : isdigit d = true := hdig d (List.mem_cons_self _ _)
  have hdm : d ≠ '-' := ne_minus_of_isdigit d hd
  have hcolon : isspace ':' = false := by decide
  have hminus : isspace '-' = false := by decide
  unfold valueAfterKey
  rw [skipSpace_append _ _ hws1, skipSpace_cons_of_not _ _ hcolon]
  simp only [charAt, List.getD_cons_zero, ne_eq, not_true_eq_false, if_false, List.drop_one,
    List.tail_cons, List.append_assoc]
  rw [skipSpace_append _ _ hws2]
  cases neg with
  | true =>
    have e : signText true ++ (d :: ds ++ rest) = '-' :: (d :: ds ++ rest) := rfl
    rw [e, skipSpace_cons_of_not _ _ hminus]
    simp only [List.getD_cons_zero, if_true, List.tail_cons]
    have e2 : d :: ds ++ rest = d :: (ds ++ rest) := rfl
    rw [e2]
    simp only [List.getD_cons_zero, hd, not_true_eq_false, if_false]
    rw [← e2, digitsLoop_append _ _ _ hdig hrest]
  | false =>
    have e : signText false ++ (d :: ds ++ rest) = d :: (ds ++ rest) := rfl
    rw [e, skipSpace_cons_of_not _ _ (isspace_of_isdigit d hd)]
    simp only [List.getD_cons_zero, hdm, if_false, hd, not_true_eq_false]
    have e2 : d :: (ds ++ rest) = d :: ds ++ rest := rfl
    rw [e2, digitsLoop_append _ _ _ hdig hrest]
    simp

theorem wrapSigned_32_of_fits (x : Int) (h1 : -(2 ^ 31) ≤ x) (h2 : x < 2 ^ 31) :
    wrapSigned 32 x = x := by
  unfold wrapSigned
  norm_num at h1 h2 ⊢
  rw [Int.emod_eq_of_lt (by omega) (by omega)]
  omega

theorem wrapSigned_64_of_fits (x : Int) (h1 : -(2 ^ 63) ≤ x) (h2 : x < 2 ^ 63) :
    wrapSigned 64 x = x := by
  unfold wrapSigned
  norm_num at h1 h2 ⊢
  rw [Int.emod_eq_of_lt (by omega) (by omega)]
  omega

theorem foldl_digits_ge (digits : List Char) (acc : Nat) :
    acc ≤ digits.foldl (fun a c => a * 10 + (c.toNat - 48)) acc := by
  induction digits generalizing acc with
  | nil => simp
  | cons c t ih =>
    simp only [List.foldl_cons]
    have := ih (acc * 10 + (c.toNat - 48))
    omega

theorem digitsLoop_exact (digits : List Char) (acc : Nat)
    (hdig : ∀ c ∈ digits, isdigit c = true)
    (hb : digits.foldl (fun a c => a * 10 + (c.toNat - 48)) acc < 2 ^ 63) :
    digitsLoop digits (acc : Int)
      = ((digits.foldl (fun a c => a * 10 + (c.toNat - 48)) acc : Nat) : Int) := by
  induction digits generalizing acc with
  | nil => rfl
  | cons c t ih =>
    have hc : isdigit c = true := hdig c (List.mem_cons_self _ _)
    have ht : ∀ d ∈ t, isdigit d = true := fun d hd => hdig d (List.mem_cons_of_mem _ hd)
    have hcb := isdigit_bounds c hc
    simp only [List.foldl_cons] at hb ⊢
    have hge := foldl_digits_ge t (acc * 10 + (c.toNat - 48))
    have hcast : ((acc : Int) * 10 + ((c.toNat : Int) - 48))
        = ((acc * 10 + (c.toNat - 48) : Nat) : Int) := by
      push_cast [Nat.cast_sub hcb.1]
      ring
    have hw : wrapSigned 64 ((acc : Int) * 10 + ((c.toNat : Int) - 48))
        = ((acc * 10 + (c.toNat - 48) : Nat) : Int) := by
      rw [hcast]
      apply wrapSigned_64_of_fits
      · have : (0 : Int) ≤ ((acc * 10 + (c.toNat - 48) : Nat) : Int) := Int.ofNat_nonneg _
        omega
      · have : acc * 10 + (c.toNat - 48) < 2 ^ 63 := lt_of_le_of_lt hge hb
        exact_mod_cast this
    simp only [digitsLoop, hc, if_true, hw]
    exact ih _ ht hb

theorem digitsLoop_decimalValue (digits : List Char)
    (hdig : ∀ c ∈ digits, isdigit c = true) (hb : decimalValue digits < 2 ^ 63) :
    digitsLoop digits 0 = (decimalValue digits : Int) := by
  have := digitsLoop_exact digits 0 hdig hb
  simpa [decimalValue] using this

theorem wrapped_value_of_fits (digits : List Char) (neg : Bool)
    (hdig : ∀ c ∈ digits, isdigit c = true)
    (hfit : -(2 ^ 31) ≤ signedValue neg digits ∧ signedValue neg digits < 2 ^ 31) :
    wrapSigned 32 (wrapSigned 64 (digitsLoop digits 0 * (if neg = true then -1 else 1)))
      = signedValue neg digits := by
  have hdv : decimalValue digits < 2 ^ 63 := by
    have h1 := hfit.1
    have h2 := hfit.2
    unfold signedValue at h1 h2
    have : ((decimalValue digits : Nat) : Int) < 2 ^ 63 := by
      cases neg <;> simp at h1 h2 <;> omega
    exact_mod_cast this
  rw [digitsLoop_decimalValue _ hdig hdv]
  have e : (decimalValue digits : Int) * (if neg = true then -1 else 1)
      = signedValue neg digits := by
    unfold signedValue
    cases neg <;> simp
  rw [e, wrapSigned_64_of_fits _ (by have := hfit.1; omega) (by have := hfit.2; omega),
    wrapSigned_32_of_fits _ hfit.1 hfit.2]

/-- C5: when the first occurrence of the quoted key `value` is followed by
whitespace, a colon, whitespace, an optional minus sign and a run of one or
more digits whose signed value fits a 32-bit signed integer, the extractor
succeeds with exactly that value, whatever text stands before the key and
after the digit run. -/
theorem extract_value_contract (pre ws1 ws2 digits rest : List Char) (neg : Bool)
    (hfirst : FirstOccurrence valueNeedle pre)
    (hws1 : ∀ c ∈ ws1, isspace c = true) (hws2 : ∀ c ∈ ws2, isspace c = true)
    (hne : digits ≠ []) (hdig : ∀ c ∈ digits, isdigit c = true)
    (hrest : ∀ c, rest.head? = some c → isdigit c = false)
    (hfit : -(2 ^ 31) ≤ signedValue neg digits ∧ signedValue neg digits < 2 ^ 31) :
    extract_json_int_value
        (pre ++ valueNeedle ++ (ws1 ++ ':' :: (ws2 ++ signText neg ++ digits ++ rest)))
        "value".toList
      = some (signedValue neg digits) := by
  have hn := needleOf_value
  rw [← hn] at hfirst ⊢
  rw [extract_at_first _ _ _ hfirst, valueAfterKey_pattern _ _ _ _ _ hws1 hws2 hne hdig hrest,
    wrapped_value_of_fits _ _ hdig hfit]

/-- C5, witness: the body `{"value": -42}` gives `-42`. -/
theorem extract_value_contract_witness :
    extract_json_int_value "\x7b\"value\": -42\x7d".toList "value".toList = some (-42) :=
  extract_value_contract "\x7b".toList [] " ".toList "42".toList "\x7d".toList true
    (firstOccurrence_of_strstr _ _ (by decide))
    (by decide) (by decide) (by decide) (by decide) (by decide) (by decide)

theorem charAt_zero (s : List Char) : charAt s 0 = s.headD '\x00' := by
  cases s <;> rfl

theorem valueAfterKey_none_iff (post : List Char) :
    valueAfterKey post = none ↔ (colonMissing post ∨ digitMissing post) := by
  unfold valueAfterKey colonMissing digitMissing
  simp only [skipSpace_eq_dropWhile, charAt_zero]
  cases hA : post.dropWhile isspace with
  | nil => simp
  | cons c t =>
    by_cases hc : c = ':'
    · subst hc
      simp only [List.headD_cons, ne_eq, not_true_eq_false, if_false, List.drop_one,
        List.tail_cons, List.head?_cons, false_or]
      cases hB : t.dropWhile isspace with
      | nil => simp; decide
      | cons b t2 =>
        by_cases hb : b = '-'
        · subst hb
          cases t2 with
          | nil => simp; decide
          | cons d t3 => simp
        · cases hd : isdigit b <;> simp [hb, hd]
    · simp [hc]

/-- C6: with the key `value` the extractor reports not-found exactly when
the quoted needle does not occur in the body, or the first non-whitespace
character after its first occurrence is not a colon, or the character after
that colon, optional whitespace and an optional minus sign is not a digit;
the bodies `{"value":}` and `{}` are both not-found. -/
theorem extract_not_found_iff (body : List Char) :
    (extract_json_int_value body "value".toList = none ↔
      (¬ valueNeedle <:+: body ∨
        ∃ pre post, body = pre ++ valueNeedle ++ post ∧ FirstOccurrence valueNeedle pre ∧
          (colonMissing post ∨ digitMissing post))) ∧
    extract_json_int_value "\x7b\"value\":\x7d".toList "value".toList = none ∧
    extract_json_int_value "\x7b\x7d".toList "value".toList = none := by
  refine ⟨?_, by decide, by decide⟩
  rw [extract_eq, needleOf_value]
  cases h : strstr body valueNeedle with
  | none =>
    have := (strstr_none_iff body valueNeedle).mp h
    simp [this]
  | some suf =>
    obtain ⟨pre, post, h1, h2, h3⟩ := strstr_some _ _ _ h
    have hin : valueNeedle <:+: body := ⟨pre, post, h1.symm⟩
    have hd : suf.drop valueNeedle.length = post := by rw [h2]; simp
    simp only [hd, hin, not_true_eq_false, false_or]
    rw [valueAfterKey_none_iff]
    constructor
    · intro hm
      exact ⟨pre, post, h1, h3, hm⟩
    · rintro ⟨pre2, post2, e1, e2, hm⟩
      have hs := strstr_first valueNeedle pre2 post2 e2
      rw [← e1, h, h2] at hs
      have : post = post2 := by simpa using hs
      rw [this]; exact hm

theorem skipSpace_append_of_digit (a X : List Char) (d : Char) (t : List Char)
    (hX : X = d :: t) (hd : isdigit d = true) :
    skipSpace (a ++ X) = skipSpace a ++ X := by
  induction a with
  | nil =>
    rw [hX]
    simp [skipSpace, isspace_of_isdigit d hd]
  | cons c a2 ih =>
    by_cases hc : isspace c = true
    · simp [skipSpace, hc, ih]
    · simp [skipSpace, hc]

theorem mem_of_mem_skipSpace (a : List Char) (c : Char) (h : c ∈ skipSpace a) : c ∈ a := by
  rw [skipSpace_eq_dropWhile] at h
  exact (List.dropWhile_suffix _).subset h

theorem ne_colon_of_isdigit (c : Char) (h : isdigit c = true) : c ≠ ':' := by
  intro e
  subst e
  exact absurd h (by decide)

theorem valueAfterKey_digit_free (a digits rest : List Char)
    (ha : ∀ c ∈ a, isdigit c = false)
    (hne : digits ≠ []) (hdig : ∀ c ∈ digits, isdigit c = true)
    (hrest : ∀ c, rest.head? = some c → isdigit c = false) :
    valueAfterKey (a ++ (digits ++ rest)) = valueAfterKey (a ++ digits) := by
  obtain ⟨d, ds, rfl⟩ := List.exists_cons_of_ne_nil hne
  have hd : isdigit d = true := hdig d (List.mem_cons_self _ _)
  have hl : digitsLoop (d :: ds ++ rest) 0 = digitsLoop (d :: ds) 0 :=
    digitsLoop_append _ _ _ hdig hrest
  have hdc := ne_colon_of_isdigit d hd
  have hdm := ne_minus_of_isdigit d hd
  unfold valueAfterKey
  rw [skipSpace_append_of_digit a (d :: ds ++ rest) d (ds ++ rest) rfl hd,
    skipSpace_append_of_digit a (d :: ds) d ds rfl hd]
  cases h1 : skipSpace a with
  | nil => simp [charAt, hdc]
  | cons c a2 =>
    by_cases hc : c = ':'
    · subst hc
      simp only [charAt, List.cons_append, List.getD_cons_zero, ne_eq, not_true_eq_false,
        if_false, List.drop_one, List.tail_cons]
      rw [skipSpace_append_of_digit a2 (d :: (ds ++ rest)) d (ds ++ rest) rfl hd,
        skipSpace_append_of_digit a2 (d :: ds) d ds rfl hd]
      have hsub : ∀ x ∈ skipSpace a2, isdigit x = false := by
        intro x hx
        apply ha
        apply mem_of_mem_skipSpace
        rw [h1]
        exact List.mem_cons_of_mem _ (mem_of_mem_skipSpace _ _ hx)
      cases h2 : skipSpace a2 with
      | nil =>
        simp only [List.nil_append, List.cons_append, List.getD_cons_zero, hdm, if_false, hd,
          not_true_eq_false]
        have e : d :: (ds ++ rest) = d :: ds ++ rest := rfl
        rw [e, hl]
      | cons c3 a4 =>
        rw [h2] at hsub
        by_cases hc3 : c3 = '-'
        · subst hc3
          simp only [List.cons_append, List.getD_cons_zero, if_true, List.tail_cons]
          cases a4 with
          | nil =>
            simp only [List.nil_append, List.getD_cons_zero, hd, not_true_eq_false, if_false]
            have e : d :: (ds ++ rest) = d :: ds ++ rest := rfl
            rw [e, hl]
          | cons c4 a5 =>
            have : isdigit c4 = false := hsub c4 (by simp)
            simp [this]
        · have : isdigit c3 = false := hsub c3 (by simp)
          simp [hc3, this]
    · simp [charAt, hc]

/-- C7: the result of the extractor depends only on the text up to the end
of the digit run that follows the first occurrence of the quoted key: with
the same text before the key, the same digit-free text between the key and
the digits and the same digits, any two texts after the digit run (neither
continuing the run with a digit) give the same result. -/
theorem extract_ignores_text_after_digits
    (key pre between digits rest rest2 : List Char)
    (hfirst : FirstOccurrence (needleOf key) pre)
    (hbetween : ∀ c ∈ between, isdigit c = false)
    (hne : digits ≠ []) (hdig : ∀ c ∈ digits, isdigit c = true)
    (hrest : ∀ c, rest.head? = some c → isdigit c = false)
    (hrest2 : ∀ c, rest2.head? = some c → isdigit c = false) :
    extract_json_int_value (pre ++ needleOf key ++ (between ++ (digits ++ rest))) key
      = extract_json_int_value (pre ++ needleOf key ++ (between ++ (digits ++ rest2))) key := by
  rw [extract_at_first _ _ _ hfirst, extract_at_first _ _ _ hfirst,
    valueAfterKey_digit_free _ _ _ hbetween hne hdig hrest,
    valueAfterKey_digit_free _ _ _ hbetween hne hdig hrest2]

/-- C7, witness: the body `{"value": 7, "value": 9}` gives the same result
as `{"value": 7}`, the value 7 of the first occurrence. -/
theorem extract_ignores_text_after_digits_witness :
    extract_json_int_value "\x7b\"value\": 7, \"value\": 9\x7d".toList "value".toList
      = extract_json_int_value "\x7b\"value\": 7\x7d".toList "value".toList ∧
    extract_json_int_value "\x7b\"value\": 7, \"value\": 9\x7d".toList "value".toList
      = some 7 :=
  ⟨extract_ignores_text_after_digits "value".toList "\x7b".toList ": ".toList "7".toList
      ", \"value\": 9\x7d".toList "\x7d".toList
      (firstOccurrence_of_strstr _ _ (by decide))
      (by decide) (by decide) (by decide) (by decide) (by decide),
    by decide⟩

/-! ## The handler -/

theorem handle_client_bad_line (reads : List (List Char)) (buf : List Char) (st : Storage)
    (hread : read_full_http_request reads BUFFER_SIZE = some buf)
    (hbad : parse_request_line (cstr buf) 16 256 = none) :
    handle_client reads st
      = ⟨some (400, "\x7b\"error\":\"Bad Request\"\x7d".toList), st, []⟩ := by
  unfold handle_client
  simp only [hread, hbad]

theorem parse_none_of_long_path (req : List Char)
    (h : 256 ≤ (textBetweenSpaces req).length) : parse_request_line req 16 256 = none := by
  rw [parse_request_line_eq, if_pos]
  unfold lineRefused
  exact Or.inr (Or.inr (Or.inr (Or.inr (Or.inr h))))

/-- C4: when a request was read and its start line does not parse, in
particular when the text between its first and second space is 256 bytes or
longer, the handler answers 400 and makes no call on the storage, which is
left as it was, whatever the method and the state of the storage. -/
theorem bad_start_line_gives_400 (reads : List (List Char)) (buf : List Char) (st : Storage)
    (hread : read_full_http_request reads BUFFER_SIZE = some buf)
    (hbad : parse_request_line (cstr buf) 16 256 = none ∨
      256 ≤ (textBetweenSpaces (cstr buf)).length) :
    handle_client reads st
      = ⟨some (400, "\x7b\"error\":\"Bad Request\"\x7d".toList), st, []⟩ := by
  rcases hbad with h | h
  · exact handle_client_bad_line reads buf st hread h
  · exact handle_client_bad_line reads buf st hread (parse_none_of_long_path _ h)

set_option maxRecDepth 100000 in
/-- C4, witness: a `POST` whose path is 256 bytes long, on an unreachable
storage, is answered with 400 and no storage call. -/
theorem bad_start_line_gives_400_witness :
    handle_client ["POST ".toList ++ longPath ++ " HTTP/1.1\r\n\r\n".toList] unreachableStorage
      = ⟨some (400, "\x7b\"error\":\"Bad Request\"\x7d".toList), unreachableStorage, []⟩ :=
  bad_start_line_gives_400 _ ("POST ".toList ++ longPath ++ " HTTP/1.1\r\n\r\n".toList) _
    (by decide) (Or.inr (by decide))

set_option maxRecDepth 100000 in
/-- C8, counterexample: the request `OPTIONS <path of 256 bytes> HTTP/1.1`
has the method token `OPTIONS` and is answered with 400, not 200. -/
theorem options_long_path_gives_400 :
    textBeforeFirstSpace ("OPTIONS ".toList ++ longPath ++ " HTTP/1.1\r\n\r\n".toList)
      = "OPTIONS".toList ∧
    textBetweenSpaces ("OPTIONS ".toList ++ longPath ++ " HTTP/1.1\r\n\r\n".toList)
      = longPath ∧
    (handle_client ["OPTIONS ".toList ++ longPath ++ " HTTP/1.1\r\n\r\n".toList]
        emptyStorage).response
      = some (400, "\x7b\"error\":\"Bad Request\"\x7d".toList) := by
  decide

/-- C8, amended: when the start line of a request that was read parses and
its method is `OPTIONS`, the handler answers 200 with the body
`{"status":"ok"}` whatever the path is, and makes no call on the storage. -/
theorem options_gives_200 (reads : List (List Char)) (buf path : List Char) (st : Storage)
    (hread : read_full_http_request reads BUFFER_SIZE = some buf)
    (hparse : parse_request_line (cstr buf) 16 256 = some ("OPTIONS".toList, path)) :
    handle_client reads st = ⟨some (200, "\x7b\"status\":\"ok\"\x7d".toList), st, []⟩ := by
  unfold handle_client
  simp only [hread, hparse, if_true]

/-- C8, witness: `OPTIONS /no/such/route` on an unreachable storage. -/
theorem options_gives_200_witness :
    handle_client ["OPTIONS /no/such/route HTTP/1.1\r\n\r\n".toList] unreachableStorage
      = ⟨some (200, "\x7b\"status\":\"ok\"\x7d".toList), unreachableStorage, []⟩ :=
  options_gives_200 _ "OPTIONS /no/such/route HTTP/1.1\r\n\r\n".toList
    "/no/such/route".toList _ (by decide) (by decide)

/-- C9, counterexample: `GET /nope` parses and is none of the registered
routes, yet with an unreachable storage the answer is 500, not 404. -/
theorem unknown_route_unreachable_gives_500 :
    parse_request_line "GET /nope HTTP/1.1\r\n\r\n".toList 16 256
      = some ("GET".toList, "/nope".toList) ∧
    handle_client ["GET /nope HTTP/1.1\r\n\r\n".toList] unreachableStorage
      = ⟨some (500, "\x7b\"error\":\"DB connection failed\"\x7d".toList), unreachableStorage,
          [StorageOp.connect]⟩ := by
  decide

/-- C9, amended: when the start line of a request that was read parses, the
method and path are none of `OPTIONS` with any path, `GET /health`,
`POST /push`, `POST /pop` and `GET /stack`, and the storage connection can
be opened, the handler answers 404 with the body
`{"error":"Route Not Found"}`, after opening the connection and running the
create-if-absent statement. -/
theorem unknown_route_gives_404 (reads : List (List Char)) (buf method path : List Char)
    (st : Storage)
    (hread : read_full_http_request reads BUFFER_SIZE = some buf)
    (hparse : parse_request_line (cstr buf) 16 256 = some (method, path))
    (hopt : method ≠ "OPTIONS".toList)
    (hhealth : ¬ (method = "GET".toList ∧ path = "/health".toList))
    (hpush : ¬ (method = "POST".toList ∧ path = "/push".toList))
    (hpop : ¬ (method = "POST".toList ∧ path = "/pop".toList))
    (hstack : ¬ (method = "GET".toList ∧ path = "/stack".toList))
    (hconn : get_db_connection st = true) :
    handle_client reads st
      = ⟨some (404, "\x7b\"error\":\"Route Not Found\"\x7d".toList), exec_create st,
          [StorageOp.connect, StorageOp.createTable, StorageOp.finish]⟩ := by
  unfold handle_client
  simp only [hread, hparse, hopt, hhealth, hpush, hpop, hstack, hconn, if_false,
    not_true_eq_false]

/-- C9, witness: `DELETE /stack` on a working storage. -/
theorem unknown_route_gives_404_witness :
    handle_client ["DELETE /stack HTTP/1.1\r\n\r\n".toList] emptyStorage
      = ⟨some (404, "\x7b\"error\":\"Route Not Found\"\x7d".toList), exec_create emptyStorage,
          [StorageOp.connect, StorageOp.createTable, StorageOp.finish]⟩ :=
  unknown_route_gives_404 _ "DELETE /stack HTTP/1.1\r\n\r\n".toList "DELETE".toList
    "/stack".toList _ (by decide) (by decide) (by decide) (by decide) (by decide) (by decide)
    (by decide) (by decide)

/-- C10, counterexample: `POST /push` with the body `{}` on a reachable
storage without table is answered with 400, but the connection was opened
and the create statement executed, which created the table; on an
unreachable storage the same request is answered with 500. -/
theorem empty_push_touches_storage :
    extract_json_int_value (requestBody "POST /push HTTP/1.1\r\n\r\n\x7b\x7d".toList)
      "value".toList = none ∧
    handle_client ["POST /push HTTP/1.1\r\n\r\n\x7b\x7d".toList]
        { emptyStorage with tableExists := false }
      = ⟨some (400,
            "\x7b\"error\":\"Invalid JSON: expected \x7b\\\"value\\\": <int>\x7d\"\x7d".toList),
          emptyStorage,
          [StorageOp.connect, StorageOp.createTable, StorageOp.finish]⟩ ∧
    handle_client ["POST /push HTTP/1.1\r\n\r\n\x7b\x7d".toList] unreachableStorage
      = ⟨some (500, "\x7b\"error\":\"DB connection failed\"\x7d".toList), unreachableStorage,
          [StorageOp.connect]⟩ := by
  decide

/-- C10, amended: for a `POST /push` request that was read and whose body
has no extractable `value` field, the handler first opens the storage
connection: if that fails it answers 500; otherwise it runs the
create-if-absent statement, closes the connection and answers 400, and no
insert, delete or select statement is executed. -/
theorem push_without_value (reads : List (List Char)) (buf : List Char) (st : Storage)
    (hread : read_full_http_request reads BUFFER_SIZE = some buf)
    (hparse : parse_request_line (cstr buf) 16 256 = some ("POST".toList, "/push".toList))
    (hbody : extract_json_int_value (requestBody (cstr buf)) "value".toList = none) :
    handle_client reads st =
      if get_db_connection st = true then
        ⟨some (400,
            "\x7b\"error\":\"Invalid JSON: expected \x7b\\\"value\\\": <int>\x7d\"\x7d".toList),
          exec_create st, [StorageOp.connect, StorageOp.createTable, StorageOp.finish]⟩
      else
        ⟨some (500, "\x7b\"error\":\"DB connection failed\"\x7d".toList), st,
          [StorageOp.connect]⟩ := by
  unfold handle_client
  unfold requestBody at hbody
  simp only [hread, hparse]
  rw [if_neg (by decide), if_neg (by decide)]
  by_cases hc : get_db_connection st = true
  · simp only [hc, not_true_eq_false, if_false, if_true, and_self, hbody]
  · have hf : get_db_connection st = false := by simpa using hc
    simp [hf]

/-- C10, witness: `POST /push` with the body `{"value":}` on a working
storage. -/
theorem push_without_value_witness :
    handle_client ["POST /push HTTP/1.1\r\n\r\n\x7b\"value\":\x7d".toList] emptyStorage =
      ⟨some (400,
          "\x7b\"error\":\"Invalid JSON: expected \x7b\\\"value\\\": <int>\x7d\"\x7d".toList),
        emptyStorage, [StorageOp.connect, StorageOp.createTable, StorageOp.finish]⟩ :=
  push_without_value _ "POST /push HTTP/1.1\r\n\r\n\x7b\"value\":\x7d".toList emptyStorage
    (by decide) (by decide) (by decide)

/-! ## Decimal texts -/

theorem digitChar_toNat (d : Nat) (h : d < 10) : (digitChar d).toNat = 48 + d := by
  interval_cases d <;> rfl

theorem isdigit_digitChar (d : Nat) (h : d < 10) : isdigit (digitChar d) = true := by
  interval_cases d <;> rfl

theorem natToDecAux_spec (fuel n : Nat) (acc : List Char) (h : n < fuel) :
    ∃ ds, natToDecAux fuel n acc = ds ++ acc ∧ ds ≠ [] ∧
      (∀ c ∈ ds, isdigit c = true) ∧
      (∀ a, ds.foldl (fun a c => a * 10 + (c.toNat - 48)) a = a * 10 ^ ds.length + n) ∧
      (ds.length = 1 ∨ 10 ^ (ds.length - 1) ≤ n) := by
  induction fuel generalizing n acc with
  | zero => omega
  | succ fuel ih =>
    have hm : n % 10 < 10 := Nat.mod_lt _ (by omega)
    unfold natToDecAux
    by_cases hz : n / 10 = 0
    · refine ⟨[digitChar (n % 10)], by simp [hz], by simp, ?_, ?_, Or.inl rfl⟩
      · intro c hc
        simp at hc
        subst hc
        exact isdigit_digitChar _ hm
      · intro a
        simp [digitChar_toNat _ hm]
        omega
    · rw [if_neg hz]
      obtain ⟨ds, h1, h2, h3, h4, h5⟩ := ih (n / 10) (digitChar (n % 10) :: acc) (by omega)
      refine ⟨ds ++ [digitChar (n % 10)], by simp [h1], by simp, ?_, ?_, Or.inr ?_⟩
      · intro c hc
        rcases List.mem_append.mp hc with hc | hc
        · exact h3 c hc
        · simp at hc
          subst hc
          exact isdigit_digitChar _ hm
      · intro a
        rw [List.foldl_append, h4 a]
        simp only [List.foldl_cons, List.foldl_nil, List.length_append, List.length_singleton,
          digitChar_toNat _ hm, pow_succ]
        have : 48 + n % 10 - 48 = n % 10 := by omega
        rw [this]
        have hn : n = n / 10 * 10 + n % 10 := by omega
        nth_rewrite 3 [hn]
        ring
      · simp only [List.length_append, List.length_singleton, Nat.add_sub_cancel]
        have hpos : 1 ≤ ds.length := by
          cases ds with
          | nil => exact absurd rfl h2
          | cons _ _ => simp
        rcases h5 with h5 | h5
        · rw [h5]; omega
        · have e : ds.length = (ds.length - 1) + 1 := by omega
          rw [e, pow_succ]
          omega

theorem natToDec_spec (n : Nat) :
    natToDec n ≠ [] ∧ (∀ c ∈ natToDec n, isdigit c = true) ∧
      decimalValue (natToDec n) = n ∧
      ((natToDec n).length = 1 ∨ 10 ^ ((natToDec n).length - 1) ≤ n) := by
  obtain ⟨ds, h1, h2, h3, h4, h5⟩ := natToDecAux_spec (n + 1) n [] (by omega)
  have e : natToDec n = ds := by simpa [natToDec] using h1
  rw [e]
  refine ⟨h2, h3, ?_, h5⟩
  have := h4 0
  simpa [decimalValue] using this

theorem natToDec_length_le (n k : Nat) (hk : 1 ≤ k) (h : n < 10 ^ k) :
    (natToDec n).length ≤ k := by
  rcases (natToDec_spec n).2.2.2 with h1 | h1
  · omega
  · by_contra hc
    have : 10 ^ k ≤ 10 ^ ((natToDec n).length - 1) :=
      Nat.pow_le_pow_right (by omega) (by omega)
    omega

theorem intToDec_eq (v : Int) :
    intToDec v = signText (decide (v < 0)) ++ natToDec v.natAbs := by
  unfold intToDec signText
  by_cases h : v < 0 <;> simp [h]

theorem signedValue_natToDec (v : Int) :
    signedValue (decide (v < 0)) (natToDec v.natAbs) = v := by
  unfold signedValue
  rw [(natToDec_spec v.natAbs).2.2.1]
  by_cases h : v < 0
  · simp only [h, decide_True, if_true]; omega
  · simp only [h, decide_False, Bool.false_eq_true, if_false]; omega

theorem intToDec_length_le (v : Int) (h : fitsInt32 v) : (intToDec v).length ≤ 11 := by
  have hb : v.natAbs < 10 ^ 10 := by
    unfold fitsInt32 at h
    omega
  have := natToDec_length_le v.natAbs 10 (by omega) hb
  rw [intToDec_eq, List.length_append]
  unfold signText
  split <;> simp <;> omega

theorem extract_pushBody (v : Int) (h : fitsInt32 v) :
    extract_json_int_value (pushBody v) "value".toList = some v := by
  have hs := natToDec_spec v.natAbs
  have e0 : "\x7b\"value\": ".toList = ['\x7b'] ++ needleOf "value".toList ++ [':', ' '] := by
    decide
  have e : pushBody v = ['\x7b'] ++ needleOf "value".toList ++
      ([] ++ ':' :: ([' '] ++ signText (decide (v < 0)) ++ natToDec v.natAbs
        ++ "\x7d".toList)) := by
    unfold pushBody
    rw [intToDec_eq, e0]
    simp
  have hfirst : FirstOccurrence (needleOf "value".toList) ['\x7b'] :=
    firstOccurrence_of_strstr _ _ (by decide)
  have hfit : -(2 ^ 31) ≤ signedValue (decide (v < 0)) (natToDec v.natAbs) ∧
      signedValue (decide (v < 0)) (natToDec v.natAbs) < 2 ^ 31 := by
    rw [signedValue_natToDec]; exact h
  rw [e, extract_at_first _ _ _ hfirst,
    valueAfterKey_pattern _ _ _ _ _ (by simp) (by decide) hs.1 hs.2.1 (by decide),
    wrapped_value_of_fits _ _ hs.2.1 hfit, signedValue_natToDec]

theorem int4Digits_all (ds : List Char) (acc : Nat) (h : ∀ c ∈ ds, isdigit c = true) :
    int4Digits ds acc = some (ds.foldl (fun a c => a * 10 + (c.toNat - 48)) acc) := by
  induction ds generalizing acc with
  | nil => rfl
  | cons c t ih =>
    have hc : isdigit c = true := h c (List.mem_cons_self _ _)
    have ht : ∀ d ∈ t, isdigit d = true := fun d hd => h d (List.mem_cons_of_mem _ hd)
    simp [int4Digits, hc, ih _ ht]

theorem ne_plus_of_isdigit (c : Char) (h : isdigit c = true) : c ≠ '+' := by
  intro e
  subst e
  exact absurd h (by decide)

theorem int4in_intToDec (v : Int) (h : fitsInt32 v) :
    int4in ((intToDec v).take 31) = some v := by
  have hl := intToDec_length_le v h
  rw [List.take_of_length_le (by omega)]
  obtain ⟨hne, hdig, hval, -⟩ := natToDec_spec v.natAbs
  have hd := int4Digits_all _ 0 hdig
  have hval2 : (natToDec v.natAbs).foldl (fun a c => a * 10 + (c.toNat - 48)) 0 = v.natAbs :=
    hval
  rw [hval2] at hd
  unfold fitsInt32 at h
  rw [intToDec_eq]
  unfold int4in
  by_cases hneg : v < 0
  · have e : signText (decide (v < 0)) ++ natToDec v.natAbs = '-' :: natToDec v.natAbs := by
      simp [signText, hneg]
    rw [e]
    simp only [charAt, List.getD_cons_zero, true_or, if_true, List.drop_one, List.tail_cons,
      hne, if_false, hd]
    have hv : -((v.natAbs : Nat) : Int) = v := by omega
    simp only [decide_True, if_true, hv]
    rw [if_pos h]
  · obtain ⟨d, ds, hcons⟩ := List.exists_cons_of_ne_nil hne
    have hdd : isdigit d = true := hdig d (by rw [hcons]; exact List.mem_cons_self _ _)
    have e : signText (decide (v < 0)) ++ natToDec v.natAbs = natToDec v.natAbs := by
      simp [signText, hneg]
    rw [e]
    have hc0 : charAt (natToDec v.natAbs) 0 = d := by rw [hcons]; rfl
    have h1 := ne_minus_of_isdigit d hdd
    have h2 := ne_plus_of_isdigit d hdd
    simp only [hc0, h1, h2, or_self, if_false, hne, hd, decide_False, Bool.false_eq_true]
    have hv : ((v.natAbs : Nat) : Int) = v := by omega
    simp only [hv]
    rw [if_pos h]

theorem take_poppedBody (v : Int) (h : fitsInt32 v) :
    ("\x7b\"status\":\"popped\",\"value\":".toList ++ intToDec v ++ "\x7d".toList).take 127
      = poppedBody v := by
  have hl := intToDec_length_le v h
  unfold poppedBody
  apply List.take_of_length_le
  have e1 : "\x7b\"status\":\"popped\",\"value\":".toList.length = 27 := by decide
  have e2 : "\x7d".toList.length = 1 := by decide
  rw [List.length_append, List.length_append, e1, e2]
  omega

/-! ## The storage -/

theorem get_db_connection_working (st : Storage) (h : st.working) :
    get_db_connection st = true := by
  obtain ⟨h1, h2, -⟩ := h
  simp [get_db_connection, h1, h2]

theorem exec_create_of_exists (st : Storage) (h : st.tableExists = true) :
    exec_create st = st := by
  unfold exec_create
  simp [h]

theorem exec_create_working (st : Storage) (h : st.working) :
    (exec_create st).working ∧ (exec_create st).tableExists = true := by
  obtain ⟨h1, h2, h3, h4, h5, h6⟩ := h
  unfold exec_create
  rw [if_neg (by simp [h3])]
  by_cases he : st.tableExists = true
  · rw [if_pos he]
    exact ⟨⟨h1, h2, h3, h4, h5, h6⟩, he⟩
  · rw [if_neg he]
    exact ⟨⟨h1, h2, h3, h4, h5, h6⟩, rfl⟩

theorem exec_create_rows_of_empty (st : Storage) (h : st.rows = []) :
    (exec_create st).rows = [] := by
  unfold exec_create
  split
  · exact h
  · split
    · exact h
    · rfl

theorem exec_insert_ok (st : Storage) (v : Int) (hw : st.working)
    (he : st.tableExists = true) (hv : fitsInt32 v) :
    exec_insert st ((intToDec v).take 31) = (true, pushRow st v) := by
  obtain ⟨-, -, -, h4, -, -⟩ := hw
  unfold exec_insert
  rw [if_neg (by simp [h4, he]), int4in_intToDec v hv]
  rfl

theorem insertDesc_of_lt (r : Row) (l : List Row) (h : ∀ x ∈ l, r.id < x.id) :
    insertDesc r l = l ++ [r] := by
  induction l with
  | nil => rfl
  | cons x t ih =>
    have hx : r.id < x.id := h x (List.mem_cons_self _ _)
    have ht : ∀ y ∈ t, r.id < y.id := fun y hy => h y (List.mem_cons_of_mem _ hy)
    unfold insertDesc
    rw [if_neg (by omega), ih ht]
    rfl

theorem orderByIdDesc_of_increasing (rows : List Row)
    (h : rows.Pairwise (fun a b => a.id < b.id)) : orderByIdDesc rows = rows.reverse := by
  induction rows with
  | nil => rfl
  | cons r t ih =>
    obtain ⟨h1, h2⟩ := List.pairwise_cons.mp h
    unfold orderByIdDesc
    rw [ih h2, insertDesc_of_lt r _ (by
      intro x hx
      exact h1 x (List.mem_reverse.mp hx))]
    simp

theorem stackIs_fresh (st : Storage) (hw : st.working) (he : st.rows = []) :
    StackIs st [] := by
  refine ⟨hw, Or.inr he, ⟨?_, ?_⟩, ?_⟩
  · rw [he]; exact List.Pairwise.nil
  · rw [he]; intro r h; cases h
  · rw [he]; rfl

theorem stackIs_create (st : Storage) (vs : List Int) (h : StackIs st vs) :
    StackIs (exec_create st) vs ∧ (exec_create st).tableExists = true := by
  obtain ⟨hw, ht, ho, hv⟩ := h
  by_cases he : st.tableExists = true
  · rw [exec_create_of_exists st he]
    exact ⟨⟨hw, ht, ho, hv⟩, he⟩
  · have hr : st.rows = [] := ht.resolve_left he
    obtain ⟨h1, h2, h3, h4, h5, h6⟩ := hw
    have e : exec_create st = { st with tableExists := true, rows := [], nextId := 1 } := by
      unfold exec_create
      rw [if_neg (by simp [h3]), if_neg he]
    rw [e]
    refine ⟨⟨⟨h1, h2, h3, h4, h5, h6⟩, Or.inl rfl, ⟨List.Pairwise.nil, ?_⟩, ?_⟩, rfl⟩
    · intro r h; cases h
    · rw [← hv, hr]

theorem stackIs_pushRow (st : Storage) (vs : List Int) (v : Int) (h : StackIs st vs)
    (he : st.tableExists = true) : StackIs (pushRow st v) (vs ++ [v]) := by
  obtain ⟨hw, -, ⟨hp, hb⟩, hv⟩ := h
  refine ⟨hw, Or.inl he, ⟨?_, ?_⟩, ?_⟩
  · show (st.rows ++ [(⟨st.nextId, v⟩ : Row)]).Pairwise _
    rw [List.pairwise_append]
    refine ⟨hp, List.pairwise_singleton _ _, ?_⟩
    intro a ha b hb2
    simp at hb2
    subst hb2
    exact hb a ha
  · intro r hr
    have hr2 : r ∈ st.rows ++ [(⟨st.nextId, v⟩ : Row)] := hr
    show r.id < st.nextId + 1
    rcases List.mem_append.mp hr2 with h1 | h1
    · have := hb r h1; omega
    · simp at h1
      subst h1
      show st.nextId < st.nextId + 1
      omega
  · show (st.rows ++ [(⟨st.nextId, v⟩ : Row)]).map _ = _
    rw [List.map_append, hv]
    rfl

theorem selected_values (st : Storage) (vs : List Int) (h : StackIs st vs) :
    (orderByIdDesc st.rows).map (fun r => intToDec r.value) = vs.reverse.map intToDec := by
  obtain ⟨-, -, ⟨hp, -⟩, hv⟩ := h
  rw [orderByIdDesc_of_increasing _ hp, ← hv, ← List.map_reverse, List.map_map]
  rfl

theorem exec_delete_top_last (st : Storage) (vs : List Int) (v : Int)
    (h : StackIs st (vs ++ [v])) (he : st.tableExists = true) :
    (exec_delete_top st).1 = some [intToDec v] ∧ StackIs (exec_delete_top st).2 vs := by
  obtain ⟨hw, ht, ⟨hp, hb⟩, hv⟩ := h
  have hd : st.deleteFails = false := hw.2.2.2.2.1
  rcases List.eq_nil_or_concat st.rows with hnil | ⟨init, last, hrows⟩
  · rw [hnil] at hv
    simp at hv
  · rw [List.concat_eq_append] at hrows
    rw [hrows, List.map_append] at hv
    obtain ⟨hv1, hv2⟩ := List.append_inj' hv (by simp)
    have hlast : last.value = v := by simpa using hv2
    rw [hrows, List.pairwise_append] at hp
    obtain ⟨hp1, -, hp3⟩ := hp
    have hlt : ∀ a ∈ init, a.id < last.id := fun a ha => hp3 a ha last (by simp)
    have hord : orderByIdDesc st.rows = last :: init.reverse := by
      rw [orderByIdDesc_of_increasing _ (by
        rw [hrows, List.pairwise_append]
        exact ⟨hp1, List.pairwise_singleton _ _, hp3⟩), hrows]
      simp
    have hf1 : st.rows.filter (fun r => decide (r.id = last.id)) = [last] := by
      rw [hrows, List.filter_append]
      have : init.filter (fun r => decide (r.id = last.id)) = [] := by
        rw [List.filter_eq_nil_iff]
        intro a ha
        have := hlt a ha
        simp
        omega
      rw [this]
      simp
    have hf2 : st.rows.filter (fun r => decide (¬ r.id = last.id)) = init := by
      rw [hrows, List.filter_append]
      have : init.filter (fun r => decide (¬ r.id = last.id)) = init := by
        rw [List.filter_eq_self]
        intro a ha
        have := hlt a ha
        simp
        omega
      rw [this]
      simp
    unfold exec_delete_top
    rw [if_neg (by simp [hd, he])]
    simp only [hord, hf1, hf2, List.map_cons, List.map_nil, hlast, true_and]
    refine ⟨hw, Or.inl he, ⟨hp1, ?_⟩, hv1⟩
    intro r hr
    exact hb r (by rw [hrows]; exact List.mem_append_left _ hr)

/-! ## The storage routes of the handler -/

theorem handle_client_push (conn : List (List Char)) (st : Storage) (v : Int)
    (hw : st.working) (hp : IsPush conn v) (hv : fitsInt32 v) :
    handle_client conn st
      = ⟨some (200, "\x7b\"status\":\"pushed\"\x7d".toList), pushRow (exec_create st) v,
          opsWith (StorageOp.insert ((intToDec v).take 31))⟩ := by
  obtain ⟨buf, hread, hparse, hbody⟩ := hp
  obtain ⟨hw1, he1⟩ := exec_create_working st hw
  unfold requestBody at hbody
  unfold handle_client
  simp only [hread, hparse]
  rw [if_neg (by decide), if_neg (by decide)]
  simp only [get_db_connection_working st hw, not_true_eq_false, if_false, and_self, if_true,
    hbody, extract_pushBody v hv, exec_insert_ok _ v hw1 he1 hv, opsWith]

theorem handle_client_list (conn : List (List Char)) (st : Storage)
    (hw : st.working) (hl : IsList conn) :
    handle_client conn st
      = ⟨some (200, stackJson ((orderByIdDesc (exec_create st).rows).map
            (fun r => intToDec r.value))), exec_create st, opsWith StorageOp.selectAll⟩ := by
  obtain ⟨body, buf, hread, hparse, -⟩ := hl
  obtain ⟨hw1, he1⟩ := exec_create_working st hw
  have hs : (exec_create st).selectFails = false := hw1.2.2.2.2.2
  unfold handle_client
  simp only [hread, hparse]
  rw [if_neg (by decide), if_neg (by decide)]
  simp only [get_db_connection_working st hw, not_true_eq_false, if_false]
  rw [if_neg (by decide), if_neg (by decide), if_pos (by decide)]
  simp [exec_select, hs, he1, opsWith]

theorem handle_client_pop (conn : List (List Char)) (st : Storage)
    (hw : st.working) (hp : IsPop conn) :
    handle_client conn st
      = match (exec_delete_top (exec_create st)).1 with
        | some (v :: _) =>
          ⟨some (200,
              ("\x7b\"status\":\"popped\",\"value\":".toList ++ v ++ "\x7d".toList).take 127),
            (exec_delete_top (exec_create st)).2, opsWith StorageOp.deleteTop⟩
        | _ =>
          ⟨some (200, "\x7b\"status\":\"stack empty\"\x7d".toList),
            (exec_delete_top (exec_create st)).2, opsWith StorageOp.deleteTop⟩ := by
  obtain ⟨body, buf, hread, hparse, -⟩ := hp
  unfold handle_client
  simp only [hread, hparse]
  rw [if_neg (by decide), if_neg (by decide)]
  simp only [get_db_connection_working st hw, not_true_eq_false, if_false]
  rw [if_neg (by decide), if_pos (by decide)]
  rfl

theorem handle_client_pop_last (conn : List (List Char)) (st : Storage) (vs : List Int)
    (v : Int) (h : StackIs st (vs ++ [v])) (hp : IsPop conn) (hv : fitsInt32 v) :
    (handle_client conn st).response = some (200, poppedBody v) ∧
      StackIs (handle_client conn st).storage vs := by
  obtain ⟨h1, he1⟩ := stackIs_create st _ h
  obtain ⟨hd1, hd2⟩ := exec_delete_top_last _ vs v h1 he1
  rw [handle_client_pop conn st h.1 hp]
  simp only [hd1, take_poppedBody v hv]
  exact ⟨trivial, hd2⟩

/-! ## The array of `GET /stack` -/

theorem stackRowsLoop_eq (vals : List (List Char)) (used : Nat)
    (h : used + (commaJoin vals).length + 4 < BUFFER_SIZE) :
    stackRowsLoop vals used = commaJoin vals := by
  induction vals generalizing used with
  | nil => rfl
  | cons v rest ih =>
    cases rest with
    | nil =>
      simp only [commaJoin] at h
      unfold stackRowsLoop
      rw [if_neg (by omega)]
      simp [stackRowsLoop, commaJoin]
    | cons w rest2 =>
      simp only [commaJoin, List.length_append, List.length_cons] at h
      unfold stackRowsLoop
      rw [if_neg (by omega)]
      simp only [ne_eq, reduceCtorEq, not_false_eq_true, if_true, List.length_append,
        List.length_singleton]
      rw [ih (used + (v.length + 1)) (by omega)]
      simp [commaJoin]

theorem stackJson_eq (vs : List Int) (h : (jsonArray vs).length ≤ 65532) :
    stackJson (vs.map intToDec) = jsonArray vs := by
  unfold jsonArray at h ⊢
  unfold stackJson
  simp only [List.length_cons, List.length_append, List.length_singleton] at h
  rw [stackRowsLoop_eq _ 1 (by unfold BUFFER_SIZE; omega)]

theorem send_response_fits (body : List Char) (h : body.length ≤ 65316) :
    send_response 200 body = Wire.sent (response_text 200 body) := by
  have hl := natToDec_length_le body.length 5 (by omega) (by omega)
  unfold send_response
  simp only
  rw [if_pos]
  unfold response_text status_text BUFFER_SIZE
  simp only [if_true, List.length_append]
  have e1 : "HTTP/1.1 ".toList.length = 9 := by decide
  have e2 : "200 OK".toList.length = 6 := by decide
  have e3 : "\r\n".toList.length = 2 := by decide
  have e4 : "Content-Type: application/json\r\n".toList.length = 32 := by decide
  have e5 : "Access-Control-Allow-Origin: *\r\n".toList.length = 32 := by decide
  have e6 : "Access-Control-Allow-Methods: GET, POST, OPTIONS\r\n".toList.length = 50 := by
    decide
  have e7 : "Access-Control-Allow-Headers: Content-Type\r\n".toList.length = 44 := by decide
  have e8 : "Connection: close\r\n".toList.length = 19 := by decide
  have e9 : "Content-Length: ".toList.length = 16 := by decide
  rw [e1, e2, e3, e4, e5, e6, e7, e8, e9]
  omega

/-! ## Sequences of requests -/

theorem serve_append (a b : List (List (List Char))) (st : Storage) :
    serve (a ++ b) st
      = ((serve a st).1 ++ (serve b (serve a st).2).1, (serve b (serve a st).2).2) := by
  induction a generalizing st with
  | nil => rfl
  | cons c t ih =>
    have e : (c :: t) ++ b = c :: (t ++ b) := rfl
    rw [e]
    simp only [serve, ih, List.cons_append]

theorem serve_pushes (pushes : List (List (List Char))) (vs : List Int)
    (hp : List.Forall₂ IsPush pushes vs) :
    ∀ (st : Storage) (ws : List Int), (∀ v ∈ vs, fitsInt32 v) → StackIs st ws →
      (serve pushes st).1
          = pushes.map (fun _ => some (200, "\x7b\"status\":\"pushed\"\x7d".toList)) ∧
        StackIs (serve pushes st).2 (ws ++ vs) := by
  induction hp with
  | nil =>
    intro st ws _ h
    exact ⟨rfl, by simpa using h⟩
  | @cons c v cs vs2 hc _ ih =>
    intro st ws hfit h
    have hv : fitsInt32 v := hfit v (List.mem_cons_self _ _)
    have hrest : ∀ x ∈ vs2, fitsInt32 x := fun x hx => hfit x (List.mem_cons_of_mem _ hx)
    obtain ⟨h1, he1⟩ := stackIs_create st ws h
    have hstep := handle_client_push c st v h.1 hc hv
    have hnext : StackIs (pushRow (exec_create st) v) (ws ++ [v]) :=
      stackIs_pushRow _ ws v h1 he1
    obtain ⟨r1, r2⟩ := ih (pushRow (exec_create st) v) (ws ++ [v]) hrest hnext
    simp only [serve, hstep, List.map_cons]
    refine ⟨by rw [r1], ?_⟩
    have e : ws ++ v :: vs2 = ws ++ [v] ++ vs2 := by simp
    rw [e]; exact r2

theorem serve_pops (pops : List (List (List Char))) :
    ∀ (l : List Int) (st : Storage) (ws : List Int), (∀ c ∈ pops, IsPop c) →
      pops.length = l.length → (∀ v ∈ l, fitsInt32 v) → StackIs st (ws ++ l.reverse) →
      (serve pops st).1 = l.map (fun v => some (200, poppedBody v)) ∧
        StackIs (serve pops st).2 ws := by
  induction pops with
  | nil =>
    intro l st ws _ hlen _ h
    have hl : l = [] := List.length_eq_zero.mp hlen.symm
    subst hl
    exact ⟨rfl, by simpa using h⟩
  | cons c cs ih =>
    intro l st ws hpop hlen hfit h
    cases l with
    | nil => simp at hlen
    | cons v l2 =>
      have hv : fitsInt32 v := hfit v (List.mem_cons_self _ _)
      have hrest : ∀ x ∈ l2, fitsInt32 x := fun x hx => hfit x (List.mem_cons_of_mem _ hx)
      have hc : IsPop c := hpop c (List.mem_cons_self _ _)
      have hcs : ∀ d ∈ cs, IsPop d := fun d hd => hpop d (List.mem_cons_of_mem _ hd)
      have e : ws ++ (v :: l2).reverse = (ws ++ l2.reverse) ++ [v] := by simp
      rw [e] at h
      obtain ⟨s1, s2⟩ := handle_client_pop_last c st _ v h hc hv
      obtain ⟨r1, r2⟩ := ih l2 (handle_client c st).storage ws hcs
        (by simpa using hlen) hrest s2
      simp only [serve, List.map_cons]
      exact ⟨by rw [s1, r1], r2⟩

theorem serve_pushes_list_raw (st : Storage) (vs : List Int)
    (pushes : List (List (List Char))) (listConn : List (List Char))
    (hw : st.working) (hempty : st.rows = [])
    (hfit : ∀ v ∈ vs, fitsInt32 v)
    (hpush : List.Forall₂ IsPush pushes vs) (hlist : IsList listConn) :
    (serve (pushes ++ [listConn]) st).1
      = pushes.map (fun _ => pushedResponse)
        ++ [some (200, stackJson (vs.reverse.map intToDec))] := by
  obtain ⟨r1, r2⟩ := serve_pushes pushes vs hpush st [] hfit (stackIs_fresh st hw hempty)
  rw [List.nil_append] at r2
  obtain ⟨h1, -⟩ := stackIs_create _ _ r2
  rw [serve_append, r1]
  simp only [serve, handle_client_list listConn _ r2.1 hlist, selected_values _ _ h1]
  rfl

theorem stackRowsLoop_length (vals : List (List Char)) (used : Nat) :
    used + (stackRowsLoop vals used).length ≤ max used 65532 := by
  induction vals generalizing used with
  | nil => simp [stackRowsLoop]
  | cons v rest ih =>
    unfold stackRowsLoop
    by_cases hb : used + v.length + 4 ≥ BUFFER_SIZE
    · rw [if_pos hb]
      simp
    · rw [if_neg hb]
      unfold BUFFER_SIZE at hb
      have hp : (v ++ (if rest ≠ [] then [','] else [])).length ≤ v.length + 1 := by
        rw [List.length_append]
        split <;> simp
      have := ih (used + (v ++ (if rest ≠ [] then [','] else [])).length)
      simp only [List.length_append] at this hp ⊢
      omega

theorem stackJson_length (vals : List (List Char)) : (stackJson vals).length ≤ 65533 := by
  have := stackRowsLoop_length vals 1
  unfold stackJson
  simp only [List.length_cons, List.length_append, List.length_singleton, List.length_nil]
  omega

theorem commaJoin_ones_length (n : Nat) :
    (commaJoin (List.replicate (n + 1) ['1'])).length = 2 * n + 1 := by
  induction n with
  | zero => rfl
  | succ k ih =>
    have e : List.replicate (k + 1 + 1) ['1'] = ['1'] :: List.replicate (k + 1) ['1'] := rfl
    have e2 : List.replicate (k + 1) ['1'] = ['1'] :: List.replicate k ['1'] := rfl
    rw [e]
    nth_rewrite 1 [e2]
    unfold commaJoin
    rw [← e2]
    simp only [List.length_append, List.length_cons, List.length_nil, ih]
    omega

theorem isPush_ones (n : Nat) :
    List.Forall₂ IsPush (List.replicate n (pushRequest 1)) (List.replicate n 1) := by
  induction n with
  | zero => exact List.Forall₂.nil
  | succ k ih =>
    exact List.Forall₂.cons
      ⟨"POST /push HTTP/1.1\r\n\r\n".toList ++ pushBody 1, by decide, by decide, by decide⟩ ih

theorem list_after_ones_truncated (n : Nat) (hn : 32766 < n) :
    (serve (List.replicate n (pushRequest 1) ++ [listRequest]) emptyStorage).1
      ≠ (List.replicate n (pushRequest 1)).map (fun _ => pushedResponse)
        ++ [some (200, jsonArray (List.replicate n 1).reverse)] := by
  rw [serve_pushes_list_raw emptyStorage (List.replicate n 1) _ listRequest (by decide) rfl
    (fun v hv => by rw [List.eq_of_mem_replicate hv]; decide) (isPush_ones n)
    ⟨[], "GET /stack HTTP/1.1\r\n\r\n".toList, by decide, by decide, by decide⟩]
  intro h
  have h2 := List.append_cancel_left h
  simp only [List.cons.injEq, Option.some.injEq, Prod.mk.injEq, true_and, and_true] at h2
  have hl := stackJson_length ((List.replicate n (1 : Int)).reverse.map intToDec)
  rw [h2] at hl
  obtain ⟨m, rfl⟩ : ∃ m, n = m + 1 := ⟨n - 1, by omega⟩
  have h1 : intToDec 1 = ['1'] := by decide
  have e : (List.replicate (m + 1) (1 : Int)).reverse.map intToDec
      = List.replicate (m + 1) ['1'] := by
    rw [List.reverse_replicate, List.map_replicate, h1]
  unfold jsonArray at hl
  rw [e] at hl
  simp only [List.length_cons, List.length_append, List.length_singleton, List.length_nil,
    commaJoin_ones_length] at hl
  omega

/-! ## The stack contract -/

set_option maxRecDepth 100000 in
/-- C1, counterexample: one push of the integer 2147483648 on an empty
table is answered with 200, and `GET /stack` then returns `[-2147483648]`,
not `[2147483648]`; and after 32767 pushes of the value 1 the body of
`GET /stack` is not the array of the 32767 values, which does not fit the
buffer `out`. -/
theorem push_out_of_range_then_list :
    ((serve ["POST /push HTTP/1.1\r\n\r\n\x7b\"value\": 2147483648\x7d".toList :: [],
        "GET /stack HTTP/1.1\r\n\r\n".toList :: []] emptyStorage).1
      = [some (200, "\x7b\"status\":\"pushed\"\x7d".toList),
          some (200, "[-2147483648]".toList)] ∧
    pushBody 2147483648 = "\x7b\"value\": 2147483648\x7d".toList ∧
    jsonArray [2147483648] = "[2147483648]".toList) ∧
    (serve (List.replicate 32767 (pushRequest 1) ++ [listRequest]) emptyStorage).1
      ≠ (List.replicate 32767 (pushRequest 1)).map (fun _ => pushedResponse)
        ++ [some (200, jsonArray (List.replicate 32767 1).reverse)] := by
  exact ⟨by decide, list_after_ones_truncated 32767 (by decide)⟩

/-- C1, amended: starting from an empty table on a working storage, for
values in the 32-bit signed range whose array text `[vn,...,v1]` is at most
65532 bytes long, the pushes of `v1..vn` are each answered with 200 and the
following `GET /stack` is answered with 200 and exactly that array as body;
when the array is at most 65316 bytes long the response written to the
socket is the complete response text. -/
theorem pushes_then_list (st : Storage) (vs : List Int)
    (pushes : List (List (List Char))) (listConn : List (List Char))
    (hw : st.working) (hempty : st.rows = [])
    (hfit : ∀ v ∈ vs, fitsInt32 v)
    (hpush : List.Forall₂ IsPush pushes vs) (hlist : IsList listConn)
    (hsize : (jsonArray vs.reverse).length ≤ 65532) :
    (serve (pushes ++ [listConn]) st).1
        = pushes.map (fun _ => pushedResponse) ++ [some (200, jsonArray vs.reverse)] ∧
      ((jsonArray vs.reverse).length ≤ 65316 →
        send_response 200 (jsonArray vs.reverse)
          = Wire.sent (response_text 200 (jsonArray vs.reverse))) := by
  refine ⟨?_, send_response_fits _⟩
  rw [serve_pushes_list_raw st vs pushes listConn hw hempty hfit hpush hlist,
    stackJson_eq _ hsize]

set_option maxRecDepth 100000 in
/-- C1, witness: pushes of 1, 2, 3 and then `GET /stack`, which returns
`[3,2,1]`. -/
theorem pushes_then_list_witness :
    ((serve ([pushRequest 1, pushRequest 2, pushRequest 3] ++ [listRequest]) emptyStorage).1
        = [pushRequest 1, pushRequest 2, pushRequest 3].map (fun _ => pushedResponse)
          ++ [some (200, jsonArray [1, 2, 3].reverse)] ∧
      ((jsonArray [1, 2, 3].reverse).length ≤ 65316 →
        send_response 200 (jsonArray [1, 2, 3].reverse)
          = Wire.sent (response_text 200 (jsonArray [1, 2, 3].reverse)))) ∧
    jsonArray [1, 2, 3].reverse = "[3,2,1]".toList :=
  ⟨pushes_then_list emptyStorage [1, 2, 3] [pushRequest 1, pushRequest 2, pushRequest 3]
      listRequest (by decide) rfl (by decide)
      (List.Forall₂.cons ⟨"POST /push HTTP/1.1\r\n\r\n".toList ++ pushBody 1,
          by decide, by decide, by decide⟩
        (List.Forall₂.cons ⟨"POST /push HTTP/1.1\r\n\r\n".toList ++ pushBody 2,
            by decide, by decide, by decide⟩
          (List.Forall₂.cons ⟨"POST /push HTTP/1.1\r\n\r\n".toList ++ pushBody 3,
              by decide, by decide, by decide⟩ List.Forall₂.nil)))
      ⟨[], "GET /stack HTTP/1.1\r\n\r\n".toList, by decide, by decide, by decide⟩ (by decide),
    by decide⟩

set_option maxRecDepth 100000 in
/-- C2, counterexample: the push of the value 2147483648 is answered with
200 and the following pop returns the value -2147483648. -/
theorem push_out_of_range_then_pop :
    (serve ["POST /push HTTP/1.1\r\n\r\n\x7b\"value\": 2147483648\x7d".toList :: [],
        "POST /pop HTTP/1.1\r\n\r\n".toList :: []] emptyStorage).1
      = [some (200, "\x7b\"status\":\"pushed\"\x7d".toList),
          some (200, "\x7b\"status\":\"popped\",\"value\":-2147483648\x7d".toList)] ∧
    pushBody 2147483648 = "\x7b\"value\": 2147483648\x7d".toList ∧
    poppedBody 2147483648 = "\x7b\"status\":\"popped\",\"value\":2147483648\x7d".toList := by
  decide

/-- C2, amended: starting from an empty table on a working storage, for
every sequence of values `v1..vn` in the 32-bit signed range, `n` pushes
followed by `n` pops are answered with `n` times 200 and then with
`{"status":"popped","value":vn}`, ..., `{"status":"popped","value":v1}` in
that order, and the table is empty afterwards. -/
theorem pushes_then_pops (st : Storage) (vs : List Int)
    (pushes pops : List (List (List Char)))
    (hw : st.working) (hempty : st.rows = [])
    (hfit : ∀ v ∈ vs, fitsInt32 v)
    (hpush : List.Forall₂ IsPush pushes vs)
    (hpops : ∀ c ∈ pops, IsPop c) (hlen : pops.length = vs.length) :
    (serve (pushes ++ pops) st).1
        = pushes.map (fun _ => pushedResponse)
          ++ vs.reverse.map (fun v => some (200, poppedBody v)) ∧
      (serve (pushes ++ pops) st).2.rows = [] := by
  obtain ⟨r1, r2⟩ := serve_pushes pushes vs hpush st [] hfit (stackIs_fresh st hw hempty)
  have r3 : StackIs (serve pushes st).2 ([] ++ vs.reverse.reverse) := by
    simpa using r2
  obtain ⟨p1, p2⟩ := serve_pops pops vs.reverse (serve pushes st).2 [] hpops
    (by simpa using hlen) (fun v hv => hfit v (List.mem_reverse.mp hv)) r3
  rw [serve_append, r1, p1]
  refine ⟨rfl, ?_⟩
  have := p2.2.2.2
  exact List.map_eq_nil_iff.mp this

set_option maxRecDepth 100000 in
/-- C2, witness: pushes of 1, 2, 3 and three pops; and the scenario push 1,
2, 3, `GET /stack` = `[3,2,1]`, pop = 3, `GET /stack` = `[2,1]`. -/
theorem pushes_then_pops_witness :
    ((serve ([pushRequest 1, pushRequest 2, pushRequest 3]
          ++ [popRequest, popRequest, popRequest]) emptyStorage).1
        = [pushRequest 1, pushRequest 2, pushRequest 3].map (fun _ => pushedResponse)
          ++ [1, 2, 3].reverse.map (fun v => some (200, poppedBody v)) ∧
      (serve ([pushRequest 1, pushRequest 2, pushRequest 3]
          ++ [popRequest, popRequest, popRequest]) emptyStorage).2.rows = []) ∧
    (serve [pushRequest 1, pushRequest 2, pushRequest 3, listRequest, popRequest, listRequest]
        emptyStorage).1
      = [pushedResponse, pushedResponse, pushedResponse, some (200, "[3,2,1]".toList),
          some (200, "\x7b\"status\":\"popped\",\"value\":3\x7d".toList),
          some (200, "[2,1]".toList)] :=
  ⟨pushes_then_pops emptyStorage [1, 2, 3] [pushRequest 1, pushRequest 2, pushRequest 3]
      [popRequest, popRequest, popRequest] (by decide) rfl (by decide)
      (List.Forall₂.cons ⟨"POST /push HTTP/1.1\r\n\r\n".toList ++ pushBody 1,
          by decide, by decide, by decide⟩
        (List.Forall₂.cons ⟨"POST /push HTTP/1.1\r\n\r\n".toList ++ pushBody 2,
            by decide, by decide, by decide⟩
          (List.Forall₂.cons ⟨"POST /push HTTP/1.1\r\n\r\n".toList ++ pushBody 3,
              by decide, by decide, by decide⟩ List.Forall₂.nil)))
      (by
        intro c hc
        simp only [List.mem_cons, List.mem_singleton, List.not_mem_nil, or_false, or_self] at hc
        subst hc
        exact ⟨[], "POST /pop HTTP/1.1\r\n\r\n".toList, by decide, by decide, by decide⟩)
      rfl,
    by decide⟩

/-! ## The response writer -/

theorem status_text_eq (status : Nat) : status_text status = reasonPhrase status := by
  by_cases h1 : status = 200
  · subst h1; rfl
  · by_cases h2 : status = 400
    · subst h2; rfl
    · by_cases h3 : status = 404
      · subst h3; rfl
      · unfold status_text reasonPhrase
        rw [if_neg h1, if_neg h2, if_neg h3]
        split
        · exact absurd rfl h1
        · exact absurd rfl h2
        · exact absurd rfl h3
        · rfl

theorem response_text_eq (status : Nat) (body : List Char) :
    response_text status body
      = "HTTP/1.1 ".toList ++ reasonPhrase status ++ "\r\n".toList ++ fixedHeaders
        ++ "Content-Length: ".toList ++ natToDec body.length ++ "\r\n\r\n".toList ++ body := by
  unfold response_text
  rw [status_text_eq]
  have e1 : fixedHeaders = "Content-Type: application/json\r\n".toList ++
      "Access-Control-Allow-Origin: *\r\n".toList ++
      "Access-Control-Allow-Methods: GET, POST, OPTIONS\r\n".toList ++
      "Access-Control-Allow-Headers: Content-Type\r\n".toList ++
      "Connection: close\r\n".toList := rfl
  have e2 : "\r\n\r\n".toList = "\r\n".toList ++ "\r\n".toList := by decide
  rw [e1, e2]
  simp only [List.append_assoc]

theorem response_text_length_ge (status : Nat) (body : List Char) :
    body.length ≤ (response_text status body).length := by
  unfold response_text
  simp only [List.length_append]
  omega

theorem send_response_overread (status : Nat) (body : List Char)
    (h : BUFFER_SIZE ≤ body.length) :
    send_response status body
      = Wire.overread ((response_text status body).take 65535 ++ ['\x00'])
          ((response_text status body).length - 65536) ∧
    65536 ≤ (response_text status body).length ∧
    send_response status body ≠ Wire.sent (response_text status body) := by
  have hl : 65536 ≤ (response_text status body).length := by
    have := response_text_length_ge status body
    unfold BUFFER_SIZE at h
    omega
  have hs : send_response status body
      = Wire.overread ((response_text status body).take 65535 ++ ['\x00'])
          ((response_text status body).length - 65536) := by
    unfold send_response BUFFER_SIZE
    simp only
    rw [if_neg (by omega)]
  refine ⟨hs, hl, ?_⟩
  rw [hs]
  exact fun h => Wire.noConfusion h

theorem longBody_length : BUFFER_SIZE ≤ longBody.length := by
  unfold longBody BUFFER_SIZE
  rw [List.length_replicate]

/-- C13, counterexample: for a body of 65536 bytes the formatted response
does not fit the 65536-byte array `resp`; what is written is the first
65535 bytes of the response text and a NUL, followed by bytes from beyond
the array, and not the response text with the whole body. -/
theorem send_response_long_body :
    send_response 200 longBody
      = Wire.overread ((response_text 200 longBody).take 65535 ++ ['\x00'])
          ((response_text 200 longBody).length - 65536) ∧
    65536 ≤ (response_text 200 longBody).length ∧
    send_response 200 longBody ≠ Wire.sent (response_text 200 longBody) :=
  send_response_overread 200 longBody longBody_length

/-- C13, amended: for every status code and every body for which the
formatted response is shorter than the 65536-byte array `resp`, the bytes
`send_response` writes are the status line `HTTP/1.1` with `200 OK`,
`400 Bad Request`, `404 Not Found` or, for any other code,
`500 Internal Server Error`, the fixed headers, a `Content-Length` header
whose digits are the decimal length of the body, a blank line and then
exactly the body. -/
theorem send_response_bytes (status : Nat) (body : List Char)
    (hfit : (response_text status body).length < BUFFER_SIZE) :
    ∃ digits : List Char,
      digits ≠ [] ∧ (∀ c ∈ digits, isdigit c = true) ∧ decimalValue digits = body.length ∧
      send_response status body
        = Wire.sent ("HTTP/1.1 ".toList ++ reasonPhrase status ++ "\r\n".toList ++ fixedHeaders
            ++ "Content-Length: ".toList ++ digits ++ "\r\n\r\n".toList ++ body) := by
  obtain ⟨h1, h2, h3, -⟩ := natToDec_spec body.length
  refine ⟨natToDec body.length, h1, h2, h3, ?_⟩
  unfold send_response
  simp only
  rw [if_pos hfit, response_text_eq]

set_option maxRecDepth 100000 in
/-- C13, witness: the response to a bad request line, status 400 with the
body `{"error":"Bad Request"}` of 23 bytes. -/
theorem send_response_bytes_witness :
    ∃ digits : List Char,
      digits ≠ [] ∧ (∀ c ∈ digits, isdigit c = true) ∧
      decimalValue digits = "\x7b\"error\":\"Bad Request\"\x7d".toList.length ∧
      send_response 400 "\x7b\"error\":\"Bad Request\"\x7d".toList
        = Wire.sent ("HTTP/1.1 ".toList ++ reasonPhrase 400 ++ "\r\n".toList ++ fixedHeaders
            ++ "Content-Length: ".toList ++ digits ++ "\r\n\r\n".toList
            ++ "\x7b\"error\":\"Bad Request\"\x7d".toList) :=
  send_response_bytes 400 "\x7b\"error\":\"Bad Request\"\x7d".toList (by
    rw [response_text_eq]
    decide)

/-! ## The body of `GET /stack` -/

theorem stackJson_bracketed (vals : List (List Char))
    (h : (bracketed vals).length ≤ 65532) : stackJson vals = bracketed vals := by
  unfold bracketed at h ⊢
  unfold stackJson
  simp only [List.length_cons, List.length_append, List.length_singleton, List.length_nil] at h
  rw [stackRowsLoop_eq _ 1 (by unfold BUFFER_SIZE; omega)]

theorem handle_client_list_of_select (conn : List (List Char)) (st : Storage)
    (vals : List (List Char)) (hl : IsList conn) (hconn : get_db_connection st = true)
    (hsel : exec_select (exec_create st) = some vals) :
    handle_client conn st
      = ⟨some (200, stackJson vals), exec_create st, opsWith StorageOp.selectAll⟩ := by
  obtain ⟨body, buf, hread, hparse, -⟩ := hl
  unfold handle_client
  simp only [hread, hparse]
  rw [if_neg (by decide), if_neg (by decide)]
  simp only [hconn, not_true_eq_false, if_false]
  rw [if_neg (by decide), if_neg (by decide), if_pos (by decide)]
  simp only [hsel, opsWith]

theorem stackRowsLoop_ones (j : Nat) :
    ∀ used k : Nat, used + 2 * j = 65531 → j < k →
      stackRowsLoop (List.replicate k ['1']) used = (List.replicate j ['1', ',']).flatten := by
  induction j with
  | zero =>
    intro used k h hk
    obtain ⟨m, rfl⟩ : ∃ m, k = m + 1 := ⟨k - 1, by omega⟩
    rw [List.replicate_succ]
    unfold stackRowsLoop BUFFER_SIZE
    rw [if_pos (by simp; omega)]
    rfl
  | succ j ih =>
    intro used k h hk
    obtain ⟨m, rfl⟩ : ∃ m, k = m + 1 + 1 := ⟨k - 2, by omega⟩
    have e : List.replicate (m + 1 + 1) ['1'] = ['1'] :: List.replicate (m + 1) ['1'] :=
      List.replicate_succ _ _
    rw [e]
    unfold stackRowsLoop BUFFER_SIZE
    rw [if_neg (by simp; omega)]
    have hne : List.replicate (m + 1) ['1'] ≠ [] := by
      rw [List.replicate_succ]; exact List.cons_ne_nil _ _
    simp only [hne, ne_eq, not_false_eq_true, if_true]
    have hu : used + (['1'] ++ [',']).length = used + 2 := rfl
    rw [hu, ih (used + 2) (m + 1) (by omega) (by omega), List.replicate_succ, List.flatten_cons]
    rfl

theorem length_flatten_pairs (j : Nat) (a b : Char) :
    ((List.replicate j [a, b]).flatten).length = 2 * j := by
  induction j with
  | zero => rfl
  | succ j ih =>
    rw [List.replicate_succ, List.flatten_cons, List.length_append, ih]
    simp only [List.length_cons, List.length_nil]
    omega

theorem stackJson_ones (k : Nat) (hk : 32765 < k) :
    stackJson (List.replicate k ['1'])
      = '[' :: ((List.replicate 32765 ['1', ',']).flatten ++ [']']) := by
  unfold stackJson
  rw [stackRowsLoop_ones 32765 1 k (by omega) hk]

theorem orderByIdDesc_onesRows (n : Nat) :
    (orderByIdDesc (onesRows n)).map (fun r => intToDec r.value) = List.replicate n ['1'] := by
  have hp : (onesRows n).Pairwise (fun a b => a.id < b.id) := by
    unfold onesRows
    rw [List.pairwise_map]
    exact (List.pairwise_lt_range n).imp (by intro a b h; show a + 1 < b + 1; omega)
  rw [orderByIdDesc_of_increasing _ hp]
  apply List.eq_replicate_iff.mpr
  constructor
  · simp [onesRows]
  · intro x hx
    simp only [List.mem_map, List.mem_reverse, onesRows, List.mem_range] at hx
    obtain ⟨r, ⟨i, -, rfl⟩, rfl⟩ := hx
    show intToDec 1 = ['1']
    decide

theorem list_of_ones (k : Nat) (hk : 32765 < k) :
    exec_select (exec_create (onesStorage k)) = some (List.replicate k ['1']) ∧
    (handle_client listRequest (onesStorage k)).response
      = some (200, '[' :: ((List.replicate 32765 ['1', ',']).flatten ++ [']'])) ∧
    (bracketed (List.replicate k ['1'])).length = 2 * k + 1 := by
  have hc : exec_create (onesStorage k) = onesStorage k := exec_create_of_exists _ rfl
  have hs : exec_select (exec_create (onesStorage k)) = some (List.replicate k ['1']) := by
    rw [hc]
    unfold exec_select
    rw [if_neg (by simp [onesStorage, emptyStorage])]
    show some ((orderByIdDesc (onesRows k)).map (fun r => intToDec r.value)) = _
    rw [orderByIdDesc_onesRows]
  refine ⟨hs, ?_, ?_⟩
  · rw [handle_client_list_of_select listRequest (onesStorage k) _
      ⟨[], "GET /stack HTTP/1.1\r\n\r\n".toList, by decide, by decide, by decide⟩ rfl hs,
      stackJson_ones k hk]
  · obtain ⟨m, rfl⟩ : ∃ m, k = m + 1 := ⟨k - 1, by omega⟩
    unfold bracketed
    simp only [List.length_cons, List.length_append, List.length_singleton, List.length_nil,
      commaJoin_ones_length]
    omega

/-- C12, counterexample: when the ordered select returns 32766 rows, each
with the value 1, the body of the `GET /stack` response holds only 32765 of
them, each followed by a comma, and then the closing bracket: it ends in a
trailing comma and is one byte shorter than the array of the 32766 values. -/
theorem list_of_many_rows_is_cut :
    exec_select (exec_create (onesStorage 32766)) = some (List.replicate 32766 ['1']) ∧
    (handle_client listRequest (onesStorage 32766)).response
      = some (200, '[' :: ((List.replicate 32765 ['1', ',']).flatten ++ [']'])) ∧
    (bracketed (List.replicate 32766 ['1'])).length = 2 * 32766 + 1 ∧
    ('[' :: ((List.replicate 32765 ['1', ',']).flatten ++ [']'])).length = 65532 := by
  obtain ⟨h1, h2, h3⟩ := list_of_ones 32766 (by decide)
  refine ⟨h1, h2, h3, ?_⟩
  rw [List.length_cons, List.length_append, length_flatten_pairs]
  rfl

/-- C12, amended: for every list of rows returned by the ordered select
whose array text (an opening bracket, the values separated by single commas
with no trailing comma, a closing bracket; `[]` for no rows) is at most
65532 bytes long, the body the `GET /stack` branch passes to the response
writer is exactly that array text, with all the values in the same order;
when it is at most 65316 bytes long the response written is complete. -/
theorem list_body_is_array (conn : List (List Char)) (st : Storage)
    (vals : List (List Char)) (hl : IsList conn) (hconn : get_db_connection st = true)
    (hsel : exec_select (exec_create st) = some vals)
    (hsize : (bracketed vals).length ≤ 65532) :
    (handle_client conn st).response = some (200, bracketed vals) ∧
    bracketed [] = "[]".toList ∧
      ((bracketed vals).length ≤ 65316 →
        send_response 200 (bracketed vals)
          = Wire.sent (response_text 200 (bracketed vals))) := by
  refine ⟨?_, by decide, send_response_fits _⟩
  rw [handle_client_list_of_select conn st vals hl hconn hsel, stackJson_bracketed _ hsize]

set_option maxRecDepth 100000 in
/-- C12, witness: `GET /stack` on a table with three rows, each with the
value 1, returns `[1,1,1]`. -/
theorem list_body_is_array_witness :
    ((handle_client listRequest (onesStorage 3)).response
        = some (200, bracketed [['1'], ['1'], ['1']]) ∧
      bracketed [] = "[]".toList ∧
        ((bracketed [['1'], ['1'], ['1']]).length ≤ 65316 →
          send_response 200 (bracketed [['1'], ['1'], ['1']])
            = Wire.sent (response_text 200 (bracketed [['1'], ['1'], ['1']])))) ∧
    bracketed [['1'], ['1'], ['1']] = "[1,1,1]".toList :=
  ⟨list_body_is_array listRequest (onesStorage 3) [['1'], ['1'], ['1']]
      ⟨[], "GET /stack HTTP/1.1\r\n\r\n".toList, by decide, by decide, by decide⟩
      (by decide) (by decide) (by decide),
    by decide⟩

/-! ## The request reader -/

theorem read_loop_nil (out_sz : Nat) (buf : List Char) :
    read_loop out_sz [] buf = readResult buf := by
  rw [read_loop]

theorem read_loop_cons (out_sz : Nat) (chunk : List Char) (rest : List (List Char))
    (buf : List Char) :
    read_loop out_sz (chunk :: rest) buf =
      if ¬ (buf.length < roomOf out_sz) then readResult buf
      else if chunk = [] then readResult buf
      else if completeCheck (buf ++ chunk) = true then some (buf ++ chunk)
      else read_loop out_sz rest (buf ++ chunk) := by
  rw [read_loop]
  unfold completeCheck roomOf
  by_cases h1 : buf.length < (out_sz + 2 ^ 64 - 1) % 2 ^ 64
  · rw [if_neg (not_not.mpr h1), if_neg (not_not.mpr h1)]
    by_cases h2 : chunk = []
    · rw [if_pos h2, if_pos h2]
    · rw [if_neg h2, if_neg h2]
      cases hs : strstr (cstr (buf ++ chunk)) CRLFCRLF with
      | none => simp [hs]
      | some hdr_end => simp [hs]
  · rw [if_pos h1, if_pos h1]

theorem toNat_of_declared (cl : Int) : (if cl > 0 then cl.toNat else 0) = cl.toNat := by
  by_cases h : cl > 0
  · simp [h]
  · simp only [h, if_false]
    omega

theorem completeCheck_iff (buf : List Char) :
    completeCheck buf = true ↔ RequestComplete buf := by
  unfold completeCheck RequestComplete
  rw [toNat_of_declared]
  cases hs : strstr (cstr buf) CRLFCRLF with
  | none =>
    have hn := (strstr_none_iff _ _).mp hs
    simp only [Bool.false_eq_true, false_iff]
    rintro ⟨head, tail, e, -, -⟩
    exact hn ⟨head, tail, e.symm⟩
  | some hdr_end =>
    obtain ⟨pre, post, h1, h2, h3⟩ := strstr_some _ _ _ hs
    have hlen : (cstr buf).length - hdr_end.length = pre.length := by
      rw [h1, h2]
      simp only [List.length_append]
      omega
    simp only [hlen, ge_iff_le, decide_eq_true_eq]
    constructor
    · intro h
      exact ⟨pre, post, h1, h3, h⟩
    · rintro ⟨head, tail, e, hf, h⟩
      have hs2 := strstr_first CRLFCRLF head tail hf
      rw [← e, hs, h2] at hs2
      have e2 : post = tail := by simpa using hs2
      have e3 : pre = head := by
        rw [h1, e2] at e
        have e4 : pre ++ (CRLFCRLF ++ tail) = head ++ (CRLFCRLF ++ tail) := by
          simpa [List.append_assoc] using e
        exact List.append_cancel_right e4
      rw [e3]; exact h

theorem readResult_of_ne (buf : List Char) (h : buf ≠ []) : readResult buf = some buf := by
  unfold readResult
  rw [if_pos (List.length_pos.mpr h)]

theorem read_loop_ne_none (out_sz : Nat) (reads : List (List Char)) :
    ∀ buf : List Char, buf ≠ [] → read_loop out_sz reads buf ≠ none := by
  induction reads with
  | nil =>
    intro buf h
    rw [read_loop_nil, readResult_of_ne buf h]
    exact Option.some_ne_none _
  | cons chunk rest ih =>
    intro buf h
    rw [read_loop_cons]
    have hr : readResult buf ≠ none := by
      rw [readResult_of_ne buf h]; exact Option.some_ne_none _
    split
    · exact hr
    · split
      · exact hr
      · split
        · exact Option.some_ne_none _
        · exact ih _ (by simp [h])

theorem read_full_none_iff (out_sz : Nat) (reads : List (List Char))
    (hroom : 0 < roomOf out_sz) :
    read_full_http_request reads out_sz = none ↔ reads.headD [] = [] := by
  unfold read_full_http_request
  cases reads with
  | nil =>
    rw [read_loop_nil]
    simp [readResult]
  | cons chunk rest =>
    rw [read_loop_cons]
    simp only [List.length_nil, hroom, not_true_eq_false, if_false, List.nil_append,
      List.headD_cons]
    by_cases hc : chunk = []
    · simp [hc, readResult]
    · simp only [hc, if_false, iff_false]
      split
      · exact Option.some_ne_none _
      · exact read_loop_ne_none _ _ _ hc

theorem read_loop_prefix (out_sz : Nat) (reads : List (List Char)) :
    ∀ (k : Nat) (buf : List Char), (∀ c ∈ reads, c ≠ []) → 0 < k → k ≤ reads.length →
      buf.length < roomOf out_sz →
      (∀ j, 0 < j → j < k →
        ¬ RequestComplete (buf ++ (reads.take j).flatten) ∧
          (buf ++ (reads.take j).flatten).length < roomOf out_sz) →
      (RequestComplete (buf ++ (reads.take k).flatten) ∨
        roomOf out_sz ≤ (buf ++ (reads.take k).flatten).length ∨ k = reads.length) →
      read_loop out_sz reads buf = some (buf ++ (reads.take k).flatten) := by
  induction reads with
  | nil =>
    intro k buf _ hk hkl
    simp at hkl
    omega
  | cons c rest ih =>
    intro k buf hne hk hkl hroom hbefore hstop
    have hc : c ≠ [] := hne c (List.mem_cons_self _ _)
    have hrest : ∀ d ∈ rest, d ≠ [] := fun d hd => hne d (List.mem_cons_of_mem _ hd)
    obtain ⟨k2, rfl⟩ : ∃ k2, k = k2 + 1 := ⟨k - 1, by omega⟩
    rw [read_loop_cons, if_neg (by simpa using hroom), if_neg hc]
    have hb1 : buf ++ c ≠ [] := by simp [hc]
    by_cases hk2 : k2 = 0
    · subst hk2
      have e : buf ++ ((c :: rest).take 1).flatten = buf ++ c := by simp
      rw [e] at hstop ⊢
      by_cases hcomp : completeCheck (buf ++ c) = true
      · rw [if_pos hcomp]
      · rw [if_neg hcomp]
        have hnc : ¬ RequestComplete (buf ++ c) := fun h => hcomp ((completeCheck_iff _).mpr h)
        rcases hstop with h | h | h
        · exact absurd h hnc
        · cases rest with
          | nil => rw [read_loop_nil]; exact readResult_of_ne _ hb1
          | cons d rest2 =>
            rw [read_loop_cons, if_pos (by omega)]
            exact readResult_of_ne _ hb1
        · have hr : rest = [] := by
            have h2 : rest.length = 0 := by
              simp only [List.length_cons] at h
              omega
            exact List.length_eq_zero.mp h2
          subst hr
          rw [read_loop_nil]
          exact readResult_of_ne _ hb1
    · have h1 := hbefore 1 (by omega) (by omega)
      have e1 : buf ++ ((c :: rest).take 1).flatten = buf ++ c := by simp
      rw [e1] at h1
      have hcomp : ¬ completeCheck (buf ++ c) = true :=
        fun h => h1.1 ((completeCheck_iff _).mp h)
      rw [if_neg hcomp]
      have ek : ∀ j, buf ++ ((c :: rest).take (j + 1)).flatten
          = (buf ++ c) ++ (rest.take j).flatten := by
        intro j
        simp [List.append_assoc]
      rw [ek k2]
      apply ih k2 (buf ++ c) hrest (by omega) (by simpa using hkl) h1.2
      · intro j hj hjk
        have := hbefore (j + 1) (by omega) (by omega)
        rw [ek j] at this
        exact this
      · rw [← ek k2]
        rcases hstop with h | h | h
        · exact Or.inl h
        · exact Or.inr (Or.inl h)
        · exact Or.inr (Or.inr (by simpa using h))

theorem roomOf_eq (out_sz : Nat) (h1 : 1 ≤ out_sz) (h2 : out_sz ≤ 2 ^ 64) :
    roomOf out_sz = out_sz - 1 := by
  unfold roomOf
  norm_num at h2 ⊢
  omega

theorem read_loop_some_prefix (out_sz : Nat) (reads : List (List Char)) :
    ∀ buf r : List Char, read_loop out_sz reads buf = some r →
      ∃ k, k ≤ reads.length ∧ r = buf ++ (reads.take k).flatten ∧ (buf = [] → 0 < k) := by
  induction reads with
  | nil =>
    intro buf r h
    rw [read_loop_nil] at h
    unfold readResult at h
    split at h
    · rename_i hpos
      simp only [Option.some.injEq] at h
      refine ⟨0, le_refl _, by simp [h], ?_⟩
      intro hb
      rw [hb] at hpos
      simp at hpos
    · exact absurd h (by simp)
  | cons c rest ih =>
    intro buf r h
    rw [read_loop_cons] at h
    have hres : readResult buf = some r →
        ∃ k, k ≤ (c :: rest).length ∧ r = buf ++ ((c :: rest).take k).flatten ∧
          (buf = [] → 0 < k) := by
      intro h
      unfold readResult at h
      split at h
      · rename_i hpos
        simp only [Option.some.injEq] at h
        refine ⟨0, Nat.zero_le _, by simp [h], ?_⟩
        intro hb
        rw [hb] at hpos
        simp at hpos
      · exact absurd h (by simp)
    split at h
    · exact hres h
    · split at h
      · exact hres h
      · split at h
        · simp only [Option.some.injEq] at h
          exact ⟨1, by simp, by simp [h], fun _ => Nat.one_pos⟩
        · obtain ⟨k, hk, hr, -⟩ := ih _ _ h
          refine ⟨k + 1, by simpa using hk, ?_, fun _ => Nat.succ_pos _⟩
          rw [hr]
          simp [List.append_assoc]

theorem length_take_flatten_lt (reads : List (List Char)) (hne : ∀ c ∈ reads, c ≠ []) :
    ∀ j, j < reads.length → ((reads.take j).flatten).length < (reads.flatten).length := by
  induction reads with
  | nil => intro j h; simp at h
  | cons c rest ih =>
    intro j hj
    have hc : c ≠ [] := hne c (List.mem_cons_self _ _)
    have hcl : 0 < c.length := List.length_pos.mpr hc
    have hrest : ∀ d ∈ rest, d ≠ [] := fun d hd => hne d (List.mem_cons_of_mem _ hd)
    cases j with
    | zero =>
      simp only [List.take_zero, List.flatten_nil, List.length_nil, List.flatten_cons,
        List.length_append]
      omega
    | succ j2 =>
      have := ih hrest j2 (by simpa using hj)
      simp only [List.take_succ_cons, List.flatten_cons, List.length_append]
      omega

theorem read_full_never_complete (out_sz : Nat) (reads : List (List Char))
    (hcap : 2 ≤ out_sz) (hsz : out_sz ≤ 2 ^ 64) (hr : reads ≠ [])
    (hne : ∀ c ∈ reads, c ≠ []) (hlen : (reads.flatten).length ≤ out_sz - 1)
    (hnot : ∀ k, 0 < k → k < reads.length → ¬ RequestComplete ((reads.take k).flatten)) :
    read_full_http_request reads out_sz = some reads.flatten := by
  have hroom := roomOf_eq out_sz (by omega) hsz
  have hpos : 0 < reads.length := List.length_pos.mpr hr
  have h := read_loop_prefix out_sz reads reads.length [] hne hpos (le_refl _)
    (by rw [hroom]; simp; omega)
    (by
      intro j hj hjk
      rw [List.nil_append, hroom]
      refine ⟨hnot j hj hjk, ?_⟩
      have := length_take_flatten_lt reads hne j hjk
      omega)
    (Or.inr (Or.inr rfl))
  rw [List.take_length, List.nil_append] at h
  exact h

/-- C14: for read results that end in a close, `read_full_http_request`
(with a capacity of at least 2) reports failure exactly when the first read
already delivers nothing, so that no byte was ever received; on success the
buffer holds exactly the bytes of the reads made so far; in particular, when
the request never becomes complete (such as a body shorter than the declared
`Content-Length`) and the bytes fit the buffer, it returns successfully with
all the bytes received before the close. -/
theorem read_until_close (out_sz : Nat) (reads : List (List Char))
    (hcap : 2 ≤ out_sz) (hsz : out_sz ≤ 2 ^ 64) :
    (read_full_http_request reads out_sz = none ↔ reads.headD [] = []) ∧
    (∀ buf, read_full_http_request reads out_sz = some buf →
      ∃ k, 0 < k ∧ k ≤ reads.length ∧ buf = (reads.take k).flatten) ∧
    (reads ≠ [] → (∀ c ∈ reads, c ≠ []) → (reads.flatten).length ≤ out_sz - 1 →
      (∀ k, 0 < k → k < reads.length → ¬ RequestComplete ((reads.take k).flatten)) →
      read_full_http_request reads out_sz = some reads.flatten) := by
  have hroom := roomOf_eq out_sz (by omega) hsz
  refine ⟨read_full_none_iff out_sz reads (by rw [hroom]; omega), ?_,
    read_full_never_complete out_sz reads hcap hsz⟩
  intro buf h
  obtain ⟨k, hk, hr, hpos⟩ := read_loop_some_prefix out_sz reads [] buf h
  exact ⟨k, hpos rfl, hk, by simpa using hr⟩

set_option maxRecDepth 100000 in
/-- C14, witness: headers that declare 100 bytes of body, 4 bytes of body
and then the close: the reader returns the 51 bytes received. -/
theorem read_until_close_witness :
    read_full_http_request
        ["POST /push HTTP/1.1\r\nContent-Length: 100\r\n\r\n".toList, "\x7b\"va".toList]
        BUFFER_SIZE
      = some "POST /push HTTP/1.1\r\nContent-Length: 100\r\n\r\n\x7b\"va".toList ∧
    header_content_length
        "POST /push HTTP/1.1\r\nContent-Length: 100\r\n\r\n\x7b\"va".toList = 100 ∧
    (read_full_http_request [] BUFFER_SIZE = none ↔ ([] : List (List Char)).headD [] = []) :=
  ⟨(read_until_close BUFFER_SIZE
      ["POST /push HTTP/1.1\r\nContent-Length: 100\r\n\r\n".toList, "\x7b\"va".toList]
      (by decide) (by decide)).2.2 (by decide) (by decide) (by decide)
      (by
        intro k h1 h2
        have hk : k = 1 := by
          simp only [List.length_cons, List.length_nil] at h2
          omega
        subst hk
        rw [← completeCheck_iff]
        decide),
    by decide,
    (read_until_close BUFFER_SIZE [] (by decide) (by decide)).1⟩

set_option maxRecDepth 100000 in
/-- C18, counterexample: the first chunk `GET /` NUL ` HTTP/1.1` CR LF CR LF
ends in the header terminator and declares no body, so the buffer contains
the terminator and holds all the bytes of the request after the first read;
yet the reader goes on and consumes the second chunk, because the NUL byte
hides the terminator from `strstr`. -/
theorem read_past_hidden_terminator :
    read_full_http_request ["GET /\x00 HTTP/1.1\r\n\r\n".toList, "more".toList] BUFFER_SIZE
      = some "GET /\x00 HTTP/1.1\r\n\r\nmore".toList ∧
    "GET /\x00 HTTP/1.1\r\n\r\n".toList = "GET /\x00 HTTP/1.1".toList ++ CRLFCRLF ∧
    header_content_length "GET /\x00 HTTP/1.1\r\n\r\n".toList = 0 ∧
    cstr "GET /\x00 HTTP/1.1\r\n\r\n".toList = "GET /".toList := by
  decide

/-- C18, amended: for non-empty read chunks, `read_full_http_request`
returns success with the bytes of the first `k` reads, consuming no later
chunk, where `k` is the first read after which the text held by the buffer
(its bytes up to the first NUL) contains the header terminator and the
number of bytes received is at least the header length through the
terminator plus the declared `Content-Length` (a negative one counting as
0), or after which the buffer holds `capacity - 1` bytes or more, or after
which the peer closes; before that read it keeps reading. -/
theorem read_stops_when_complete (out_sz : Nat) (reads : List (List Char)) (k : Nat)
    (hcap : 2 ≤ out_sz) (hsz : out_sz ≤ 2 ^ 64)
    (hne : ∀ c ∈ reads, c ≠ []) (hk : 0 < k) (hkl : k ≤ reads.length)
    (hbefore : ∀ j, 0 < j → j < k →
      ¬ RequestComplete ((reads.take j).flatten) ∧
        ((reads.take j).flatten).length < out_sz - 1)
    (hstop : RequestComplete ((reads.take k).flatten) ∨
      out_sz - 1 ≤ ((reads.take k).flatten).length ∨ k = reads.length) :
    read_full_http_request reads out_sz = some ((reads.take k).flatten) := by
  have hroom := roomOf_eq out_sz (by omega) hsz
  have h := read_loop_prefix out_sz reads k [] hne hk hkl
    (by rw [hroom]; simp; omega)
    (by
      intro j hj hjk
      rw [List.nil_append, hroom]
      exact hbefore j hj hjk)
    (by
      rw [List.nil_append, hroom]
      exact hstop)
  rw [List.nil_append] at h
  exact h

set_option maxRecDepth 100000 in
/-- C18, witness: the headers arrive in the first read, the 13 bytes of body
that they declare in the second; the reader returns after the second read
and leaves the third chunk alone. -/
theorem read_stops_when_complete_witness :
    read_full_http_request
        ["POST /push HTTP/1.1\r\nContent-Length: 13\r\n\r\n".toList,
          "\x7b\"value\": 12\x7d".toList, "GET /stack HTTP/1.1\r\n\r\n".toList]
        BUFFER_SIZE
      = some "POST /push HTTP/1.1\r\nContent-Length: 13\r\n\r\n\x7b\"value\": 12\x7d".toList :=
  read_stops_when_complete BUFFER_SIZE
    ["POST /push HTTP/1.1\r\nContent-Length: 13\r\n\r\n".toList,
      "\x7b\"value\": 12\x7d".toList, "GET /stack HTTP/1.1\r\n\r\n".toList]
    2 (by decide) (by decide) (by decide) (by decide) (by decide)
    (by
      intro j h1 h2
      have hj : j = 1 := by omega
      subst hj
      rw [← completeCheck_iff]
      decide)
    (Or.inl (by
      rw [← completeCheck_iff]
      decide))

/-! ## Bounds of the reader -/

theorem read_totals_cons (out_sz : Nat) (chunk : List Char) (rest : List (List Char))
    (buf : List Char) :
    read_totals out_sz (chunk :: rest) buf =
      if ¬ (buf.length < roomOf out_sz) then []
      else if chunk = [] then []
      else (buf ++ chunk).length ::
        (if completeCheck (buf ++ chunk) = true then []
          else read_totals out_sz rest (buf ++ chunk)) := by
  rw [read_totals]
  rfl

theorem readsFit_cons (out_sz : Nat) (chunk : List Char) (rest : List (List Char))
    (buf : List Char) :
    readsFit out_sz (chunk :: rest) buf ↔
      (buf.length < roomOf out_sz →
        chunk.length ≤ roomOf out_sz - buf.length ∧
          (chunk ≠ [] → completeCheck (buf ++ chunk) = false →
            readsFit out_sz rest (buf ++ chunk))) := by
  rw [readsFit]
  rfl

theorem read_totals_bound (out_sz : Nat) (reads : List (List Char)) :
    ∀ buf : List Char, readsFit out_sz reads buf → buf.length ≤ roomOf out_sz →
      (∀ t ∈ read_totals out_sz reads buf, buf.length < t ∧ t ≤ roomOf out_sz) ∧
        (read_totals out_sz reads buf).length + buf.length ≤ roomOf out_sz := by
  induction reads with
  | nil =>
    intro buf _ hb
    rw [read_totals]
    exact ⟨fun t ht => (by cases ht), by simpa using hb⟩
  | cons c rest ih =>
    intro buf hfit hb
    rw [read_totals_cons]
    rw [readsFit_cons] at hfit
    by_cases h1 : buf.length < roomOf out_sz
    · rw [if_neg (not_not.mpr h1)]
      obtain ⟨hlen, hnext⟩ := hfit h1
      by_cases h2 : c = []
      · rw [if_pos h2]
        exact ⟨fun t ht => (by cases ht), by simpa using hb⟩
      · rw [if_neg h2]
        have hcl : 0 < c.length := List.length_pos.mpr h2
        have hl : (buf ++ c).length = buf.length + c.length := List.length_append _ _
        by_cases h3 : completeCheck (buf ++ c) = true
        · rw [if_pos h3]
          constructor
          · intro t ht
            simp only [List.mem_singleton] at ht
            omega
          · simp only [List.length_singleton]
            omega
        · rw [if_neg h3]
          have h3f : completeCheck (buf ++ c) = false := by simpa using h3
          obtain ⟨i1, i2⟩ := ih (buf ++ c) (hnext h2 h3f) (by omega)
          constructor
          · intro t ht
            rcases List.mem_cons.mp ht with ht | ht
            · omega
            · have := i1 t ht
              omega
          · simp only [List.length_cons]
            omega
    · rw [if_pos h1]
      exact ⟨fun t ht => (by cases ht), by simpa using hb⟩

theorem read_loop_length (out_sz : Nat) (reads : List (List Char)) :
    ∀ buf r : List Char, read_loop out_sz reads buf = some r →
      r.length = (read_totals out_sz reads buf).getLastD buf.length := by
  induction reads with
  | nil =>
    intro buf r h
    rw [read_loop_nil] at h
    rw [read_totals]
    unfold readResult at h
    split at h
    · simp only [Option.some.injEq] at h
      rw [← h]; rfl
    · exact absurd h (by simp)
  | cons c rest ih =>
    intro buf r h
    rw [read_loop_cons] at h
    rw [read_totals_cons]
    have hres : readResult buf = some r → r.length = buf.length := by
      intro h
      unfold readResult at h
      split at h
      · simp only [Option.some.injEq] at h
        rw [← h]
      · exact absurd h (by simp)
    by_cases h1 : buf.length < roomOf out_sz
    · rw [if_neg (not_not.mpr h1)] at h ⊢
      by_cases h2 : c = []
      · rw [if_pos h2] at h ⊢
        exact hres h
      · rw [if_neg h2] at h ⊢
        by_cases h3 : completeCheck (buf ++ c) = true
        · rw [if_pos h3] at h ⊢
          simp only [Option.some.injEq] at h
          rw [← h]
          rfl
        · rw [if_neg h3] at h ⊢
          rw [ih _ _ h, List.getLastD_cons]
    · rw [if_pos h1] at h ⊢
      exact hres h

theorem read_loop_extra (out_sz : Nat) (reads : List (List Char)) :
    ∀ (buf : List Char) (extra : List (List Char)),
      roomOf out_sz ≤ reads.length + buf.length →
      read_loop out_sz (reads ++ extra) buf = read_loop out_sz reads buf := by
  induction reads with
  | nil =>
    intro buf extra h
    cases extra with
    | nil => rfl
    | cons e es =>
      rw [List.nil_append, read_loop_cons, read_loop_nil, if_pos (by simp at h; omega)]
  | cons c rest ih =>
    intro buf extra h
    rw [List.cons_append, read_loop_cons, read_loop_cons]
    by_cases h1 : buf.length < roomOf out_sz
    · rw [if_neg (not_not.mpr h1), if_neg (not_not.mpr h1)]
      by_cases h2 : c = []
      · rw [if_pos h2, if_pos h2]
      · rw [if_neg h2, if_neg h2]
        have hcl : 0 < c.length := List.length_pos.mpr h2
        rw [ih (buf ++ c) extra (by
          simp only [List.length_cons, List.length_append] at h ⊢
          omega)]
    · rw [if_pos h1, if_pos h1]

theorem getLastD_mem_cons (l : List Nat) : ∀ a : Nat, l.getLastD a ∈ a :: l := by
  induction l with
  | nil => intro a; simp
  | cons b l2 ih =>
    intro a
    rw [List.getLastD_cons]
    exact List.mem_cons_of_mem _ (ih b)

/-- C19: for a capacity of at least 1 and read results that never exceed the
number of bytes requested, every value the byte count `total` takes in
`read_full_http_request` is at most `capacity - 1`, so the data of each read
and the NUL written at index `total` lie below the capacity; the returned
buffer has the last of these counts as length; and the loop makes at most
`capacity - 1` reads that deliver bytes, so that read results beyond the
first `capacity - 1` never matter. -/
theorem read_stays_in_bounds (out_sz : Nat) (reads : List (List Char))
    (hcap : 1 ≤ out_sz) (hsz : out_sz ≤ 2 ^ 64) (hfit : readsFit out_sz reads []) :
    (∀ t ∈ read_totals out_sz reads [], t ≤ out_sz - 1 ∧ t < out_sz) ∧
    (read_totals out_sz reads []).length ≤ out_sz - 1 ∧
    (∀ buf, read_full_http_request reads out_sz = some buf →
      buf.length = (read_totals out_sz reads []).getLastD 0 ∧ buf.length ≤ out_sz - 1) ∧
    (∀ extra, out_sz - 1 ≤ reads.length →
      read_full_http_request (reads ++ extra) out_sz = read_full_http_request reads out_sz) := by
  have hroom := roomOf_eq out_sz hcap hsz
  obtain ⟨b1, b2⟩ := read_totals_bound out_sz reads [] hfit (Nat.zero_le _)
  rw [hroom] at b1 b2
  refine ⟨?_, by simpa using b2, ?_, ?_⟩
  · intro t ht
    have := b1 t ht
    omega
  · intro buf h
    have hl := read_loop_length out_sz reads [] buf h
    simp only [List.length_nil] at hl
    refine ⟨hl, ?_⟩
    rw [hl]
    cases hq : read_totals out_sz reads [] with
    | nil => simp
    | cons a l =>
      have hm : (a :: l).getLastD 0 ∈ read_totals out_sz reads [] := by
        rw [hq, List.getLastD_cons]
        exact getLastD_mem_cons l a
      exact (b1 _ hm).2
  · intro extra h
    unfold read_full_http_request
    exact read_loop_extra out_sz reads [] extra (by rw [hroom]; simpa using h)

set_option maxRecDepth 100000 in
/-- C19, witness: a request that arrives in two reads, with the capacity
65536; the byte count is 21 and then 23. -/
theorem read_stays_in_bounds_witness :
    ((∀ t ∈ read_totals BUFFER_SIZE ["GET /stack HTTP/1.1\r\n".toList, "\r\n".toList] [],
        t ≤ BUFFER_SIZE - 1 ∧ t < BUFFER_SIZE) ∧
      (read_totals BUFFER_SIZE ["GET /stack HTTP/1.1\r\n".toList, "\r\n".toList] []).length
        ≤ BUFFER_SIZE - 1 ∧
      (∀ buf,
        read_full_http_request ["GET /stack HTTP/1.1\r\n".toList, "\r\n".toList] BUFFER_SIZE
            = some buf →
          buf.length
              = (read_totals BUFFER_SIZE ["GET /stack HTTP/1.1\r\n".toList, "\r\n".toList]
                  []).getLastD 0 ∧
            buf.length ≤ BUFFER_SIZE - 1) ∧
      (∀ extra,
        BUFFER_SIZE - 1 ≤ ["GET /stack HTTP/1.1\r\n".toList, "\r\n".toList].length →
          read_full_http_request
              (["GET /stack HTTP/1.1\r\n".toList, "\r\n".toList] ++ extra) BUFFER_SIZE
            = read_full_http_request ["GET /stack HTTP/1.1\r\n".toList, "\r\n".toList]
                BUFFER_SIZE)) ∧
    read_totals BUFFER_SIZE ["GET /stack HTTP/1.1\r\n".toList, "\r\n".toList] [] = [21, 23] :=
  ⟨read_stays_in_bounds BUFFER_SIZE ["GET /stack HTTP/1.1\r\n".toList, "\r\n".toList]
      (by decide) (by decide)
      ((readsFit_cons _ _ _ _).mpr (fun _ => ⟨by decide, fun _ _ =>
        (readsFit_cons _ _ _ _).mpr (fun _ => ⟨by decide, fun _ _ => trivial⟩)⟩)),
    by decide⟩

/-! ## What the handler does with the outcome of the read and of the storage -/

theorem handle_client_of_read_none (reads : List (List Char)) (st : Storage)
    (h : read_full_http_request reads BUFFER_SIZE = none) :
    handle_client reads st = ⟨none, st, []⟩ := by
  unfold handle_client
  simp only [h]

theorem handle_client_responds (reads : List (List Char)) (st : Storage) (buf : List Char)
    (h : read_full_http_request reads BUFFER_SIZE = some buf) :
    (handle_client reads st).response ≠ none := by
  unfold handle_client
  simp only [h]
  split
  · simp
  · split
    · simp
    · split
      · simp
      · split
        · simp
        · split
          · split
            · simp
            · split <;> simp
          · split
            · split <;> simp
            · split
              · split <;> simp
              · simp

/-- C16, counterexample: the headers declare 100 bytes of body, 3 bytes
arrive and the peer closes; the handler nevertheless pops the stack and
answers 200 with the popped value. -/
theorem partial_pop_is_served :
    header_content_length "POST /pop HTTP/1.1\r\nContent-Length: 100\r\n\r\nabc".toList
      = 100 ∧
    requestBody "POST /pop HTTP/1.1\r\nContent-Length: 100\r\n\r\nabc".toList = "abc".toList ∧
    handle_client ["POST /pop HTTP/1.1\r\nContent-Length: 100\r\n\r\nabc".toList]
        oneRowStorage
      = ⟨some (200, "\x7b\"status\":\"popped\",\"value\":5\x7d".toList),
          { oneRowStorage with rows := [] }, opsWith StorageOp.deleteTop⟩ := by
  decide

/-- C16, amended: the handler sends no response and makes no call on the
storage exactly when the peer closes before any byte has arrived (the first
read delivers nothing); when at least one byte arrived before the close, the
handler sends a response to the partial request as received. -/
theorem dropped_iff_nothing_received (reads : List (List Char)) (st : Storage) :
    (reads.headD [] = [] ↔ handle_client reads st = ⟨none, st, []⟩) ∧
    (reads.headD [] ≠ [] ↔ (handle_client reads st).response ≠ none) := by
  have hroom : 0 < roomOf BUFFER_SIZE := by decide
  have hiff := read_full_none_iff BUFFER_SIZE reads hroom
  cases hr : read_full_http_request reads BUFFER_SIZE with
  | none =>
    have h0 := hiff.mp hr
    have hc := handle_client_of_read_none reads st hr
    refine ⟨⟨fun _ => hc, fun _ => h0⟩, ?_⟩
    rw [hc]
    exact ⟨fun e => absurd h0 e, fun e => absurd rfl e⟩
  | some buf =>
    have h0 : ¬ reads.headD [] = [] := fun e => by
      have := hiff.mpr e
      rw [hr] at this
      exact absurd this (by simp)
    have hresp := handle_client_responds reads st buf hr
    refine ⟨⟨fun e => absurd e h0, fun e => ?_⟩, ⟨fun _ => hresp, fun _ => h0⟩⟩
    rw [e] at hresp
    exact absurd rfl hresp

theorem pop_with_failed_delete (reads : List (List Char)) (buf : List Char) (st : Storage)
    (hread : read_full_http_request reads BUFFER_SIZE = some buf)
    (hparse : parse_request_line (cstr buf) 16 256 = some ("POST".toList, "/pop".toList))
    (hconn : get_db_connection st = true)
    (hfail : (exec_delete_top (exec_create st)).1 = none) :
    handle_client reads st
      = ⟨some (200, "\x7b\"status\":\"stack empty\"\x7d".toList),
          (exec_delete_top (exec_create st)).2, opsWith StorageOp.deleteTop⟩ := by
  unfold handle_client
  simp only [hread, hparse]
  rw [if_neg (by decide), if_neg (by decide)]
  simp only [hconn, not_true_eq_false, if_false]
  rw [if_neg (by decide), if_pos (by decide)]
  simp only [hfail, opsWith]

set_option maxRecDepth 100000 in
/-- C11: the failing inputs. On a reachable storage whose table holds the
value 5, `POST /pop` with a delete-returning statement that fails is
answered 200 with the body `{"status":"stack empty"}` and the row stays,
where the claim asks for 500; and `GET /stack` with a create-if-absent
statement that fails is answered 200 with the array `[5]`. -/
theorem storage_failure_answered_200 :
    handle_client ["POST /pop HTTP/1.1\r\n\r\n".toList]
        { oneRowStorage with deleteFails := true }
      = ⟨some (200, "\x7b\"status\":\"stack empty\"\x7d".toList),
          { oneRowStorage with deleteFails := true }, opsWith StorageOp.deleteTop⟩ ∧
    handle_client ["GET /stack HTTP/1.1\r\n\r\n".toList]
        { oneRowStorage with createFails := true }
      = ⟨some (200, "[5]".toList), { oneRowStorage with createFails := true },
          opsWith StorageOp.selectAll⟩ := by
  decide

/-- The storage failures that the handler does report: for a request routed
to `POST /push`, `POST /pop` or `GET /stack`, the response has status 500
and a generic error body when the storage connection cannot be opened, when
the insert statement of `POST /push` fails, and when the select query of
`GET /stack` fails. -/
theorem storage_failure_gives_500 (reads : List (List Char)) (buf method path : List Char)
    (st : Storage)
    (hread : read_full_http_request reads BUFFER_SIZE = some buf)
    (hparse : parse_request_line (cstr buf) 16 256 = some (method, path))
    (hroute : (method = "POST".toList ∧ path = "/push".toList) ∨
      (method = "POST".toList ∧ path = "/pop".toList) ∨
      (method = "GET".toList ∧ path = "/stack".toList))
    (hfail : get_db_connection st = false ∨
      (method = "POST".toList ∧ path = "/push".toList ∧
        ∃ val, extract_json_int_value (requestBody (cstr buf)) "value".toList = some val ∧
          (exec_insert (exec_create st) ((intToDec val).take 31)).1 = false) ∨
      (method = "GET".toList ∧ path = "/stack".toList ∧
        exec_select (exec_create st) = none)) :
    ∃ body, (handle_client reads st).response = some (500, body) ∧
      body ∈ storageErrorBodies := by
  have hopt : method ≠ "OPTIONS".toList := by
    rcases hroute with h | h | h <;> rw [h.1] <;> decide
  have hhealth : ¬ (method = "GET".toList ∧ path = "/health".toList) := by
    rcases hroute with h | h | h <;> rw [h.1, h.2] <;> decide
  unfold handle_client
  simp only [hread, hparse]
  rw [if_neg hopt, if_neg hhealth]
  by_cases hc : get_db_connection st = true
  · have hc2 : ¬ get_db_connection st = false := by simp [hc]
    rcases hfail with h | ⟨h1, h2, val, h3, h4⟩ | ⟨h1, h2, h3⟩
    · exact absurd h hc2
    · unfold requestBody at h3
      subst h1 h2
      simp only [hc, not_true_eq_false, if_false, and_self, if_true, h3, h4,
        Bool.false_eq_true, not_false_eq_true]
      exact ⟨_, rfl, by simp [storageErrorBodies]⟩
    · subst h1 h2
      simp only [hc, not_true_eq_false, if_false]
      rw [if_neg (by decide), if_neg (by decide), if_pos (by decide)]
      simp only [h3]
      exact ⟨_, rfl, by simp [storageErrorBodies]⟩
  · rw [if_pos hc]
    exact ⟨_, rfl, by simp [storageErrorBodies]⟩

set_option maxRecDepth 100000 in
/-- An instance of a reported failure: `POST /push` with the value 7 on a
storage whose insert statement fails. -/
theorem storage_failure_gives_500_witness :
    ∃ body,
      (handle_client ["POST /push HTTP/1.1\r\n\r\n\x7b\"value\": 7\x7d".toList]
          { emptyStorage with insertFails := true }).response = some (500, body) ∧
        body ∈ storageErrorBodies :=
  storage_failure_gives_500 _ "POST /push HTTP/1.1\r\n\r\n\x7b\"value\": 7\x7d".toList
    "POST".toList "/push".toList { emptyStorage with insertFails := true }
    (by decide) (by decide) (Or.inl ⟨rfl, rfl⟩)
    (Or.inr (Or.inl ⟨rfl, rfl, 7, by decide, by decide⟩))

/-! ## Values outside the range of `int` -/

theorem wrapSigned_32_fits (x : Int) : fitsInt32 (wrapSigned 32 x) := by
  unfold fitsInt32 wrapSigned
  norm_num
  omega

theorem wrapSigned_32_congruent (x : Int) : (wrapSigned 32 x - x) % 2 ^ 32 = 0 := by
  unfold wrapSigned
  norm_num
  omega

theorem wrapped_value_of_magnitude (digits : List Char) (neg : Bool)
    (hdig : ∀ c ∈ digits, isdigit c = true) (hmag : decimalValue digits < 2 ^ 63) :
    wrapSigned 32 (wrapSigned 64 (digitsLoop digits 0 * (if neg = true then -1 else 1)))
      = wrapSigned 32 (signedValue neg digits) := by
  rw [digitsLoop_decimalValue _ hdig hmag]
  have e : (decimalValue digits : Int) * (if neg = true then -1 else 1)
      = signedValue neg digits := by
    unfold signedValue
    cases neg <;> simp
  have hb : ((decimalValue digits : Nat) : Int) < 2 ^ 63 := by exact_mod_cast hmag
  have h0 : (0 : Int) ≤ ((decimalValue digits : Nat) : Int) := Int.ofNat_nonneg _
  rw [e, wrapSigned_64_of_fits]
  · unfold signedValue
    cases neg <;> simp <;> omega
  · unfold signedValue
    cases neg <;> simp <;> omega

theorem handle_client_push_value (conn : List (List Char)) (st : Storage)
    (body : List Char) (w : Int) (hw : st.working)
    (hreq : IsRequest conn "POST".toList "/push".toList body)
    (hext : extract_json_int_value body "value".toList = some w) (hfit : fitsInt32 w) :
    handle_client conn st
      = ⟨pushedResponse, pushRow (exec_create st) w,
          opsWith (StorageOp.insert ((intToDec w).take 31))⟩ := by
  obtain ⟨buf, hread, hparse, hbody⟩ := hreq
  obtain ⟨hw1, he1⟩ := exec_create_working st hw
  unfold requestBody at hbody
  unfold handle_client
  simp only [hread, hparse]
  rw [if_neg (by decide), if_neg (by decide)]
  simp only [get_db_connection_working st hw, not_true_eq_false, if_false, and_self, if_true,
    hbody, hext, exec_insert_ok _ w hw1 he1 hfit, opsWith, pushedResponse]

/-- C20: when the first occurrence of the quoted key `value` in the body of
a `POST /push` request is followed by the usual pattern with a digit run of
magnitude below 2^63 whose signed value lies outside the 32-bit signed
range, the extractor still succeeds, with the signed value reduced modulo
2^32 into the 32-bit signed range, which differs from the value sent; on a
working storage the handler answers 200 and stores that reduced value. -/
theorem push_out_of_int_range (conn : List (List Char)) (st : Storage)
    (pre ws1 ws2 digits rest : List Char) (neg : Bool)
    (hfirst : FirstOccurrence valueNeedle pre)
    (hws1 : ∀ c ∈ ws1, isspace c = true) (hws2 : ∀ c ∈ ws2, isspace c = true)
    (hne : digits ≠ []) (hdig : ∀ c ∈ digits, isdigit c = true)
    (hrest : ∀ c, rest.head? = some c → isdigit c = false)
    (hmag : decimalValue digits < 2 ^ 63)
    (hout : ¬ fitsInt32 (signedValue neg digits))
    (hreq : IsRequest conn "POST".toList "/push".toList
      (pre ++ valueNeedle ++ (ws1 ++ ':' :: (ws2 ++ signText neg ++ digits ++ rest))))
    (hw : st.working) :
    extract_json_int_value
        (pre ++ valueNeedle ++ (ws1 ++ ':' :: (ws2 ++ signText neg ++ digits ++ rest)))
        "value".toList
      = some (wrapSigned 32 (signedValue neg digits)) ∧
    fitsInt32 (wrapSigned 32 (signedValue neg digits)) ∧
    (wrapSigned 32 (signedValue neg digits) - signedValue neg digits) % 2 ^ 32 = 0 ∧
    wrapSigned 32 (signedValue neg digits) ≠ signedValue neg digits ∧
    handle_client conn st
      = ⟨pushedResponse, pushRow (exec_create st) (wrapSigned 32 (signedValue neg digits)),
          opsWith (StorageOp.insert
            ((intToDec (wrapSigned 32 (signedValue neg digits))).take 31))⟩ := by
  have hfits := wrapSigned_32_fits (signedValue neg digits)
  have hext : extract_json_int_value
      (pre ++ valueNeedle ++ (ws1 ++ ':' :: (ws2 ++ signText neg ++ digits ++ rest)))
      "value".toList = some (wrapSigned 32 (signedValue neg digits)) := by
    have hn := needleOf_value
    rw [← hn] at hfirst ⊢
    rw [extract_at_first _ _ _ hfirst,
      valueAfterKey_pattern _ _ _ _ _ hws1 hws2 hne hdig hrest,
      wrapped_value_of_magnitude _ _ hdig hmag]
  refine ⟨hext, hfits, wrapSigned_32_congruent _, ?_,
    handle_client_push_value conn st _ _ hw hreq hext hfits⟩
  intro e
  rw [e] at hfits
  exact hout hfits

set_option maxRecDepth 100000 in
/-- C20, witness: the body `{"value": 4294967297}` is answered 200 and the
value 1 is stored; and 2147483648 yields -2147483648. -/
theorem push_out_of_int_range_witness :
    (extract_json_int_value "\x7b\"value\": 4294967297\x7d".toList "value".toList
        = some (wrapSigned 32 (signedValue false "4294967297".toList)) ∧
      fitsInt32 (wrapSigned 32 (signedValue false "4294967297".toList)) ∧
      (wrapSigned 32 (signedValue false "4294967297".toList)
          - signedValue false "4294967297".toList) % 2 ^ 32 = 0 ∧
      wrapSigned 32 (signedValue false "4294967297".toList)
        ≠ signedValue false "4294967297".toList ∧
      handle_client ["POST /push HTTP/1.1\r\n\r\n\x7b\"value\": 4294967297\x7d".toList]
          emptyStorage
        = ⟨pushedResponse,
            pushRow (exec_create emptyStorage)
              (wrapSigned 32 (signedValue false "4294967297".toList)),
            opsWith (StorageOp.insert
              ((intToDec (wrapSigned 32 (signedValue false "4294967297".toList))).take 31))⟩) ∧
    wrapSigned 32 (signedValue false "4294967297".toList) = 1 ∧
    extract_json_int_value "\x7b\"value\": 4294967297\x7d".toList "value".toList = some 1 ∧
    extract_json_int_value "\x7b\"value\": 2147483648\x7d".toList "value".toList
      = some (-2147483648) :=
  ⟨push_out_of_int_range
      ["POST /push HTTP/1.1\r\n\r\n\x7b\"value\": 4294967297\x7d".toList] emptyStorage
      "\x7b".toList [] " ".toList "4294967297".toList "\x7d".toList false
      (firstOccurrence_of_strstr _ _ (by decide))
      (by decide) (by decide) (by decide) (by decide) (by decide) (by decide) (by decide)
      ⟨"POST /push HTTP/1.1\r\n\r\n\x7b\"value\": 4294967297\x7d".toList,
        by decide, by decide, by decide⟩
      (by decide),
    by decide, by decide, by decide⟩

/-! ## The tokens of the request line -/

theorem split_at_space (s : List Char) (h : ' ' ∈ s) :
    s = textBeforeFirstSpace s ++ ' ' :: textAfterFirstSpace s := by
  unfold textBeforeFirstSpace textAfterFirstSpace
  induction s with
  | nil => cases h
  | cons c t ih =>
    by_cases hc : c = ' '
    · subst hc
      simp [List.takeWhile, List.dropWhile]
    · have ht : ' ' ∈ t := by
        rcases List.mem_cons.mp h with h | h
        · exact absurd h.symm hc
        · exact h
      have := ih ht
      simp only [List.takeWhile, List.dropWhile, hc, ne_eq, not_false_eq_true, decide_True,
        List.cons_append, List.cons.injEq, true_and]
      exact this

theorem tokens_of_split (a rest : List Char) (h : ' ' ∉ a) :
    textBeforeFirstSpace (a ++ ' ' :: rest) = a ∧
      textAfterFirstSpace (a ++ ' ' :: rest) = rest := by
  unfold textBeforeFirstSpace textAfterFirstSpace
  induction a with
  | nil => simp [List.takeWhile, List.dropWhile]
  | cons c t ih =>
    have hc : c ≠ ' ' := fun e => h (by rw [e]; exact List.mem_cons_self _ _)
    have ht : ' ' ∉ t := fun e => h (List.mem_cons_of_mem _ e)
    obtain ⟨i1, i2⟩ := ih ht
    simp only [List.cons_append, List.takeWhile, List.dropWhile, hc, ne_eq, not_false_eq_true,
      decide_True, List.cons.injEq, true_and]
    exact ⟨i1, i2⟩

theorem no_space_in_token (s : List Char) : ' ' ∉ textBeforeFirstSpace s := by
  unfold textBeforeFirstSpace
  intro h
  have := List.mem_takeWhile_imp h
  simp at this

theorem firstLine_prefix (req : List Char) : ∃ tail, req = firstLine req ++ tail := by
  unfold firstLine
  cases hs : strstr req ['\r', '\n'] with
  | none => exact ⟨[], by simp⟩
  | some rest =>
    exact ⟨req.drop (req.length - rest.length), (List.take_append_drop _ _).symm⟩

theorem parse_some_tokens (req method path : List Char)
    (h : parse_request_line req 16 256 = some (method, path)) :
    method = textBeforeFirstSpace req ∧ path = textBetweenSpaces req ∧
      ' ' ∈ req ∧ ' ' ∈ textAfterFirstSpace req := by
  rw [parse_request_line_eq] at h
  by_cases hr : lineRefused req 16 256
  · rw [if_pos hr] at h
    exact absurd h (by simp)
  · rw [if_neg hr] at h
    simp only [Option.some.injEq, Prod.mk.injEq] at h
    unfold lineRefused at hr
    refine ⟨h.1.symm, h.2.symm, ?_, ?_⟩
    · by_contra hc
      exact hr (Or.inl hc)
    · by_contra hc
      exact hr (Or.inr (Or.inl hc))

/-- C17, counterexample: on the text `GET` CR LF `Host: x y` CR LF CR LF the
parser succeeds with the method `GET` CR LF `Host:` and the path `x`: the
method contains CR and LF and reaches beyond the first line, which is
`GET`. -/
theorem parse_crosses_line_end :
    parse_request_line "GET\r\nHost: x y\r\n\r\n".toList 16 256
      = some ("GET\r\nHost:".toList, "x".toList) ∧
    firstLine "GET\r\nHost: x y\r\n\r\n".toList = "GET".toList ∧
    '\r' ∈ "GET\r\nHost:".toList ∧ '\n' ∈ "GET\r\nHost:".toList := by
  decide

/-- C17, amended: when `parse_request_line` succeeds, the returned method
and path are the text before the first space and the text between the first
and the second space of the request text: neither contains a space and the
text is the method, a space, the path, a space and a rest; when the first
line of the request (the text before the first CR LF) contains at least two
spaces, both tokens lie within the first line, which is then the method, a
space, the path, a space and a rest. -/
theorem parsed_tokens (req method path : List Char)
    (h : parse_request_line req 16 256 = some (method, path)) :
    ' ' ∉ method ∧ ' ' ∉ path ∧
    (∃ rest, req = method ++ ' ' :: (path ++ ' ' :: rest)) ∧
    (2 ≤ (firstLine req).count ' ' →
      ∃ rest, firstLine req = method ++ ' ' :: (path ++ ' ' :: rest)) := by
  obtain ⟨hm, hp, h1, h2⟩ := parse_some_tokens req method path h
  have s1 := split_at_space req h1
  have s2 := split_at_space (textAfterFirstSpace req) h2
  refine ⟨by rw [hm]; exact no_space_in_token _, by rw [hp]; exact no_space_in_token _, ?_, ?_⟩
  · refine ⟨textAfterFirstSpace (textAfterFirstSpace req), ?_⟩
    rw [hm, hp]
    unfold textBetweenSpaces
    rw [← s2]
    exact s1
  · intro hc
    obtain ⟨tail, ht⟩ := firstLine_prefix req
    have f1 : ' ' ∈ firstLine req := List.count_pos_iff.mp (by omega)
    have t1 := split_at_space (firstLine req) f1
    have hcount : (firstLine req).count ' '
        = (textBeforeFirstSpace (firstLine req)).count ' ' + 1
          + (textAfterFirstSpace (firstLine req)).count ' ' := by
      conv_lhs => rw [t1]
      simp [List.count_append, List.count_cons]
      omega
    have hz : (textBeforeFirstSpace (firstLine req)).count ' ' = 0 :=
      List.count_eq_zero.mpr (no_space_in_token _)
    have f2 : ' ' ∈ textAfterFirstSpace (firstLine req) :=
      List.count_pos_iff.mp (by omega)
    have t2 := split_at_space (textAfterFirstSpace (firstLine req)) f2
    have e : req = textBeforeFirstSpace (firstLine req) ++ ' ' ::
        (textBeforeFirstSpace (textAfterFirstSpace (firstLine req)) ++ ' ' ::
          (textAfterFirstSpace (textAfterFirstSpace (firstLine req)) ++ tail)) := by
      conv_lhs => rw [ht, t1]
      conv_lhs => rw [t2]
      simp [List.append_assoc]
    obtain ⟨a1, a2⟩ := tokens_of_split (textBeforeFirstSpace (firstLine req))
      (textBeforeFirstSpace (textAfterFirstSpace (firstLine req)) ++ ' ' ::
        (textAfterFirstSpace (textAfterFirstSpace (firstLine req)) ++ tail))
      (no_space_in_token _)
    rw [← e] at a1 a2
    obtain ⟨b1, -⟩ := tokens_of_split
      (textBeforeFirstSpace (textAfterFirstSpace (firstLine req)))
      (textAfterFirstSpace (textAfterFirstSpace (firstLine req)) ++ tail)
      (no_space_in_token _)
    rw [← a2] at b1
    refine ⟨textAfterFirstSpace (textAfterFirstSpace (firstLine req)), ?_⟩
    rw [hm, hp, a1]
    unfold textBetweenSpaces
    rw [b1, ← t2]
    exact t1

/-- C17, witness: the start line `GET /stack HTTP/1.1`. -/
theorem parsed_tokens_witness :
    ' ' ∉ "GET".toList ∧ ' ' ∉ "/stack".toList ∧
    (∃ rest, "GET /stack HTTP/1.1\r\nHost: a b\r\n\r\n".toList
      = "GET".toList ++ ' ' :: ("/stack".toList ++ ' ' :: rest)) ∧
    (2 ≤ (firstLine "GET /stack HTTP/1.1\r\nHost: a b\r\n\r\n".toList).count ' ' →
      ∃ rest, firstLine "GET /stack HTTP/1.1\r\nHost: a b\r\n\r\n".toList
        = "GET".toList ++ ' ' :: ("/stack".toList ++ ' ' :: rest)) :=
  parsed_tokens "GET /stack HTTP/1.1\r\nHost: a b\r\n\r\n".toList "GET".toList
    "/stack".toList (by decide)

/-! ## The declared content length -/

theorem skipSpace_idem (s : List Char) : skipSpace (skipSpace s) = skipSpace s := by
  induction s with
  | nil => rfl
  | cons c t ih =>
    by_cases h : isspace c = true
    · simp [skipSpace, h, ih]
    · simp [skipSpace, h]

theorem strtolDigits_of_no_digit (u : List Char)
    (h : ¬ ∃ c, u.head? = some c ∧ isdigit c = true) : strtolDigits u 0 = 0 := by
  cases u with
  | nil => rfl
  | cons c t =>
    have hc : isdigit c = false := by
      cases hd : isdigit c with
      | false => rfl
      | true => exact absurd ⟨c, rfl, hd⟩ h
    simp [strtolDigits, hc]

theorem wrapSigned_32_zero : wrapSigned 32 0 = 0 := by decide

theorem headD_eq_iff (t : List Char) (c : Char) (hc : c ≠ '\x00') :
    t.headD '\x00' = c ↔ t.head? = some c := by
  cases t with
  | nil => simp [hc.symm]
  | cons x xs => simp

theorem atoi_of_not_numeric (v : List Char) (h : valueNotNumeric v) :
    atoi (skipSpace v) = 0 := by
  unfold valueNotNumeric at h
  simp only [atoi, skipSpace_idem, charAt_zero] at h ⊢
  simp only [skipSpace_eq_dropWhile, headD_eq_iff _ '-' (by decide),
    headD_eq_iff _ '+' (by decide)] at h ⊢
  rw [strtolDigits_of_no_digit _ h]
  simp only [Nat.cast_zero, neg_zero]
  have e1 : max (0 : Int) (-(2 ^ 63)) = 0 := by decide
  have e2 : min (0 : Int) (2 ^ 63 - 1) = 0 := by decide
  rw [e1, e2]
  split <;> exact wrapSigned_32_zero

theorem header_content_length_loop_zero (s : List Char)
    (h : ∀ pre post, s = pre ++ post → startsLine pre →
      matchesContentLength post = true → valueNotNumeric (post.drop 15)) :
    ∀ (fuel : Nat) (pre p : List Char), s = pre ++ p → startsLine pre →
      header_content_length_loop fuel p = 0 := by
  intro fuel
  induction fuel with
  | zero => intro pre p _ _; rfl
  | succ fuel ih =>
    intro pre p hs hl
    rw [header_content_length_loop]
    by_cases hp : p = []
    · rw [if_pos hp]
    · rw [if_neg hp]
      by_cases hm : matchesContentLength p = true
      · rw [if_pos hm]
        exact atoi_of_not_numeric _ (h pre p hs hl hm)
      · rw [if_neg hm]
        cases hq : strstr p ['\r', '\n'] with
        | none => rfl
        | some nl =>
          obtain ⟨a, post, h1, h2, -⟩ := strstr_some _ _ _ hq
          have hd : nl.drop 2 = post := by rw [h2]; rfl
          simp only [hd]
          apply ih (pre ++ a ++ ['\r', '\n']) post
          · rw [hs, h1]
            simp [List.append_assoc]
          · exact Or.inr ⟨pre ++ a, rfl⟩

set_option maxRecDepth 100000 in
/-- C15, counterexample: the header section of the first text has no
`Content-Length` line, yet the result is 5, taken from a line of the body;
in the second text the `Content-Length` value is empty, yet the result is
42, taken from the body after the line breaks; in the third the value
`12abc` is not a decimal number and the result is 12. -/
theorem declared_length_not_zero :
    header_content_length "POST /push HTTP/1.1\r\nHost: x\r\n\r\nContent-Length: 5".toList
      = 5 ∧
    header_content_length "POST /push HTTP/1.1\r\nContent-Length: \r\n\r\n42".toList = 42 ∧
    header_content_length "POST /push HTTP/1.1\r\nContent-Length: 12abc\r\n\r\n".toList
      = 12 := by
  decide

/-- C15, amended: the declared body length computed by
`header_content_length` is 0 whenever no line of the buffer text (the lines
of the header section and those of the body, a line starting at the start
of the text and after each CR LF) starts with the `Content-Length:` token,
and more generally whenever each line that starts with the token is
followed, after white space (line breaks included) and an optional sign, by
something other than a decimal digit. -/
theorem declared_length_zero (s : List Char)
    (h : ∀ pre post, s = pre ++ post → startsLine pre →
      matchesContentLength post = true → valueNotNumeric (post.drop 15)) :
    header_content_length s = 0 := by
  unfold header_content_length
  exact header_content_length_loop_zero s h _ [] s rfl (Or.inl rfl)

theorem valueNotNumeric_of_check (v : List Char) (h : valueNotNumericB v = true) :
    valueNotNumeric v := by
  unfold valueNotNumericB at h
  unfold valueNotNumeric
  simp only at h ⊢
  rintro ⟨c, hc, hd⟩
  rw [hc] at h
  simp [hd] at h

theorem lines_of_check (s : List Char)
    (h : ∀ i, i < s.length + 1 → matchesContentLength (s.drop i) = true →
      valueNotNumericB ((s.drop i).drop 15) = true) :
    ∀ pre post, s = pre ++ post → startsLine pre →
      matchesContentLength post = true → valueNotNumeric (post.drop 15) := by
  intro pre post hs _ hm
  have hd : s.drop pre.length = post := by rw [hs]; simp
  have hl : pre.length < s.length + 1 := by
    rw [hs, List.length_append]; omega
  apply valueNotNumeric_of_check
  rw [← hd]
  exact h pre.length hl (by rw [hd]; exact hm)

set_option maxRecDepth 100000 in
/-- C15, witness: a request whose only `Content-Length` line has the value
`abc`; the declared length is 0. -/
theorem declared_length_zero_witness :
    header_content_length "POST /push HTTP/1.1\r\nContent-Length: abc\r\n\r\n".toList = 0 :=
  declared_length_zero "POST /push HTTP/1.1\r\nContent-Length: abc\r\n\r\n".toList
    (lines_of_check _ (by decide))

end StackServer
